import Mathlib

/-!
# CASM assembler — shallow embedding and verification

This file embeds the core assembly pipeline of the CASM assembler
(`src/src/assembler.cpp` together with `src/include/casm/assembler.hpp`)
into Lean 4 and proves / refutes the specified claims about it.

Embedding conventions:

* Machine integers are modelled as `Nat` / `Int` with explicit wrapping
  (`% 2^w`, `Int.emod`) exactly where the C++ performs a conversion or
  relies on unsigned wrap-around.
* `std::vector<u8>` becomes `List Nat` (each element `< 256` by
  construction of the emitters).
* `std::unordered_map<std::string, T>` becomes an association list kept in
  *insertion* order for storage and lookup; since C++ leaves the
  *iteration* order of an unordered hash map unspecified, every place that
  iterates such a map (only `Assembler::generateObject`) takes the
  enumeration order of the keys as an explicit parameter.
* The statement AST consumed by `Assembler::assemble` (`Statement`,
  `Operand`, `ImmediateValue`) is declared in a parser header that is
  absent from the source tree (the in-tree `parser.hpp` / `parser.h` /
  `types.hpp` are divergent forward-compatible copies with incompatible
  APIs); those data types are therefore modelled from the spec's data
  model (§3), shaped exactly the way `assembler.cpp` consumes them.
* The `coil` library (opcodes, operand constructors, object container) is
  an external collaborator; the enumeration values the spec pins down
  (§4.4, §6, §8) are modelled from the spec.
* IEEE-754 floating point is not modelled: a float literal is carried as
  the pair of its 32-bit and 64-bit IEEE bit patterns, which is all the
  serializers read.  The two integer→float conversions are represented by
  functions whose value is irrelevant to every property proved here (only
  the byte *width* of their serialization matters).
-/

namespace CASM

/-! ## Bytes and little-endian serialization -/

/-- Truncate an `Int` to its unsigned 8-bit value (`static_cast<uint8_t>`). -/
def toU8 (v : Int) : Nat := (v % 256).toNat

/-- Truncate an `Int` to its unsigned 16-bit value. -/
def toU16 (v : Int) : Nat := (v % 65536).toNat

/-- Truncate an `Int` to its unsigned 32-bit value. -/
def toU32 (v : Int) : Nat := (v % 4294967296).toNat

/-- Truncate an `Int` to its unsigned 64-bit value (`static_cast<size_t>`
or `static_cast<uint64_t>` of an `i64`). -/
def toU64 (v : Int) : Nat := (v % 18446744073709551616).toNat

/-- Reinterpret an integer as a signed 64-bit value (the effect of storing
an unsigned 64-bit computation into an `i64`). -/
def wrapI64 (v : Int) : Int := (v + 9223372036854775808) % 18446744073709551616 - 9223372036854775808

/-- Two little-endian bytes of a value already reduced below `2^16`. -/
def le2 (v : Nat) : List Nat := [v % 256, v / 256 % 256]

/-- Four little-endian bytes of a value already reduced below `2^32`. -/
def le4 (v : Nat) : List Nat := [v % 256, v / 256 % 256, v / 65536 % 256, v / 16777216 % 256]

/-- Eight little-endian bytes of a value already reduced below `2^64`. -/
def le8 (v : Nat) : List Nat :=
  le4 (v % 4294967296) ++ le4 (v / 4294967296)

/-! ## The statement AST

Modelled from the spec: the parser API `assembler.cpp` compiles against is
missing from the source tree, so `Statement`, `Operand`, `ImmediateValue`
and `MemoryReference` follow the spec's data model (§3), with the exact
accessors `assembler.cpp` uses (a statement's label is a string, empty
when absent). -/

/-- `ImmediateValue` (spec §3): a tagged literal value.  A float literal
carries the IEEE bit patterns of `(float)value` and of `value` itself,
which is everything the byte serializers read from it.  A string literal
carries its raw bytes (`std::string` content). -/
inductive ImmediateValue
  | intV (v : Int)
  | floatV (b32 b64 : Nat)
  | charV (c : Nat)
  | stringV (s : List Nat)
deriving DecidableEq, Repr

/-- `MemoryReference` (spec §3): base register name and offset. -/
structure MemoryReference where
  reg : String
  offset : Int
deriving DecidableEq, Repr

/-- `Operand` (spec §3): tagged variant over register / immediate /
memory / label. -/
inductive Operand
  | register (name : String)
  | immediate (v : ImmediateValue)
  | memory (m : MemoryReference)
  | label (name : String)
deriving DecidableEq, Repr

/-- `Instruction` (spec §3): mnemonic, parameters (condition codes),
positional operands. -/
structure Instruction where
  name : String
  params : List String := []
  operands : List Operand := []
deriving DecidableEq, Repr

/-- `Directive` (spec §3): name and operands. -/
structure Directive where
  name : String
  operands : List Operand := []
deriving DecidableEq, Repr

/-- `Statement` (spec §3): empty, label-only, instruction or directive;
instructions and directives carry an optional label (empty string when
absent, as `assembler.cpp` reads `stmt.getLabel()`). -/
inductive Statement
  | empty
  | labelOnly (label : String)
  | instr (label : String) (i : Instruction)
  | dir (label : String) (d : Directive)
deriving DecidableEq, Repr

/-! ## The coil target model

Modelled from the spec: the `coil` library is an external collaborator.
The spec pins the operand-type codes (§4.4: None=0, Reg=1, Imm=2, Mem=3,
Label=4), the condition-code values (§6: `eq..lte` ↦ `1..6`, `None = 0`)
and `opcode-of-nop = 0x00` (§8 S1).  The remaining opcode bytes follow the
repository's opcode table (`src/src/common/opcodes.h`); no claim depends
on any of them. -/

/-- `coil::OperandType`. -/
inductive COperandType
  | noneT
  | regT
  | immT
  | memT
  | labelT
deriving DecidableEq, Repr

/-- The numeric code of an operand type (spec §4.4). -/
def COperandType.code : COperandType → Nat
  | .noneT => 0
  | .regT => 1
  | .immT => 2
  | .memT => 3
  | .labelT => 4

/-- `coil::ValueType`, restricted to the members the assembler produces. -/
inductive CValueType
  | i8 | u8 | i16 | u16 | i32 | u32 | i64 | u64 | f32 | f64
deriving DecidableEq, Repr

/-- `coil::Operand`: the union is modelled by one field per member; the
immediate union content is kept as the signed 64-bit quantity `imm`, of
which the serializer reads the low 1, 2, 4 or 8 bytes. -/
structure COperand where
  type : COperandType := .noneT
  valueType : CValueType := .i32
  reg : Nat := 0
  imm : Int := 0
  memBase : Nat := 0
  memOffset : Int := 0
  labelIdx : Nat := 0
deriving DecidableEq, Repr

/-- `coil::createRegOp` (modelled from the spec). -/
def createRegOp (r : Nat) (t : CValueType) : COperand :=
  { type := .regT, valueType := t, reg := r }

/-- `coil::createImmOpInt` (modelled from the spec): an integer immediate
stored as a signed 64-bit value. -/
def createImmOpInt (v : Int) (t : CValueType) : COperand :=
  { type := .immT, valueType := t, imm := wrapI64 v }

/-- `coil::createImmOpFp` (modelled from the spec): a float immediate
stores the IEEE bit pattern selected by the value type. -/
def createImmOpFp (b32 b64 : Nat) (t : CValueType) : COperand :=
  { type := .immT, valueType := t,
    imm := if t = .f32 then (b32 : Int) else (b64 : Int) }

/-- `coil::createMemOp` (modelled from the spec): base register and
32-bit offset. -/
def createMemOp (base : Nat) (offset : Int) (t : CValueType) : COperand :=
  { type := .memT, valueType := t, memBase := base, memOffset := offset }

/-- `coil::Instruction`: opcode byte, condition flag byte, and up to three
operands, absent ones typed `None`. -/
structure CInstruction where
  opcode : Nat := 0
  flag0 : Nat := 0
  dest : COperand := {}
  src1 : COperand := {}
  src2 : COperand := {}
deriving DecidableEq, Repr

/-- The mnemonic → opcode-byte table of `Assembler::processInstruction`
(spec §6 closed set; `nop = 0x00` is pinned by the spec, the other bytes
follow the repository's opcode table and no claim depends on them). -/
def mnemonicOpcode (name : String) : Option Nat :=
  if name = "nop" then some 0x00
  else if name = "jmp" then some 0x07
  else if name = "br" then some 0x02
  else if name = "call" then some 0x03
  else if name = "ret" then some 0x04
  else if name = "load" then some 0x20
  else if name = "store" then some 0x21
  else if name = "push" then some 0x11
  else if name = "pop" then some 0x12
  else if name = "mov" then some 0x10
  else if name = "add" then some 0x60
  else if name = "sub" then some 0x61
  else if name = "mul" then some 0x62
  else if name = "div" then some 0x63
  else if name = "rem" then some 0x64
  else if name = "inc" then some 0x65
  else if name = "dec" then some 0x66
  else if name = "neg" then some 0x67
  else if name = "and" then some 0x50
  else if name = "or" then some 0x51
  else if name = "xor" then some 0x52
  else if name = "not" then some 0x53
  else if name = "shl" then some 0x54
  else if name = "shr" then some 0x55
  else if name = "sar" then some 0x56
  else if name = "cmp" then some 0x05
  else if name = "test" then some 0x06
  else if name = "cvt" then some 0xA0
  else none

/-- The parameter → condition-flag fold of `Assembler::processInstruction`
(spec §6: `eq neq gt gte lt lte` map to `1..6`; later parameters
overwrite earlier ones, unknown parameters are ignored). -/
def flagOfParams (params : List String) : Nat :=
  params.foldl (fun acc p =>
    if p = "eq" then 1
    else if p = "neq" then 2
    else if p = "gt" then 3
    else if p = "gte" then 4
    else if p = "lt" then 5
    else if p = "lte" then 6
    else acc) 0

/-! ## Sections, symbols, relocations (assembler.hpp) -/

/-- `coil::SectionType` as used by the assembler. -/
inductive CSectionType
  | progBits | noBits | symTab | strTab
deriving DecidableEq, Repr

/-- `coil::SectionFlag` bitset (spec §3: {Code, Write, Alloc, Merge, TLS});
the external library's bit positions are not observed by any claim, so the
set is kept as five booleans. -/
structure CSectionFlags where
  code : Bool := false
  write : Bool := false
  alloc : Bool := false
  merge : Bool := false
  tls : Bool := false
deriving DecidableEq, Repr

/-- `Assembler::Section` (assembler.hpp): name, raw data, running offset,
type and flags. -/
structure Sec where
  name : String := ""
  data : List Nat := []
  currentOffset : Nat := 0
  type : CSectionType := .progBits
  flags : CSectionFlags := {}
deriving DecidableEq, Repr

/-- `Section::addData` with the default alignment argument 1 (the only
alignment the assembler ever passes): append bytes and advance the
offset. -/
def Sec.addData (s : Sec) (newData : List Nat) : Sec :=
  { s with data := s.data ++ newData, currentOffset := s.currentOffset + newData.length }

/-- `Section::addByte`: append one byte and advance the offset. -/
def Sec.addByte (s : Sec) (b : Nat) : Sec :=
  { s with data := s.data ++ [b], currentOffset := s.currentOffset + 1 }

/-- `coil::SymbolType` as used by the assembler. -/
inductive CSymbolType
  | noType | funcT | objectT | sectionT
deriving DecidableEq, Repr

/-- `coil::SymbolBinding`. -/
inductive CSymbolBinding
  | localB | globalB | weakB
deriving DecidableEq, Repr

/-- `Assembler::Symbol` (assembler.hpp). -/
structure Sym where
  name : String := ""
  value : Nat := 0
  sectionName : String := ""
  type : CSymbolType := .noType
  binding : CSymbolBinding := .localB
  defined : Bool := false
deriving DecidableEq, Repr

/-- `Assembler::RelocationEntry` (assembler.hpp). -/
structure RelocationEntry where
  symbolName : String
  sectionName : String
  offset : Nat
  size : Nat
  isRelative : Bool
  addend : Int
deriving DecidableEq, Repr

/-! ## Association-list helpers (the storage view of `unordered_map`) -/

/-- Key lookup in an association list. -/
def alGet {α : Type} (l : List (String × α)) (k : String) : Option α :=
  match l with
  | [] => none
  | (k1, v) :: rest => if k1 = k then some v else alGet rest k

/-- Key membership in an association list. -/
def alHasKey {α : Type} (l : List (String × α)) (k : String) : Bool :=
  match l with
  | [] => false
  | (k1, _) :: rest => k1 = k || alHasKey rest k

/-- Update the value stored under an existing key, keeping its position. -/
def alSet {α : Type} (l : List (String × α)) (k : String) (f : α → α) : List (String × α) :=
  match l with
  | [] => []
  | (k1, v) :: rest => if k1 = k then (k1, f v) :: rest else (k1, v) :: alSet rest k f

/-! ## The assembly context (`Assembler::AssemblyContext`) -/

/-- The mutable state of one assembly: sections and symbols in insertion
order, the relocation list, and the current-section name (empty before
the first section is entered). -/
structure Ctx where
  sections : List (String × Sec) := []
  symbols : List (String × Sym) := []
  relocations : List RelocationEntry := []
  current : String := ""
deriving DecidableEq, Repr

/-- The default attributes `AssemblyContext::switchSection` gives a newly
created section (well-known names get their spec §4.3 defaults, any other
name keeps the `Section` member initializers: `ProgBits`, no flags). -/
def defaultSection (name : String) : Sec :=
  if name = ".text" then
    { name := name, flags := { code := true, alloc := true }, type := .progBits }
  else if name = ".data" then
    { name := name, flags := { write := true, alloc := true }, type := .progBits }
  else if name = ".bss" then
    { name := name, flags := { write := true, alloc := true }, type := .noBits }
  else if name = ".rodata" then
    { name := name, flags := { alloc := true }, type := .progBits }
  else
    { name := name }

/-- `AssemblyContext::switchSection`: set the current section, creating it
with default attributes if it does not exist yet. -/
def Ctx.switchSection (ctx : Ctx) (name : String) : Ctx :=
  { ctx with
    current := name,
    sections := if alHasKey ctx.sections name then ctx.sections
                else ctx.sections ++ [(name, defaultSection name)] }

/-- `AssemblyContext::ensureSection`: same reachable states as
`switchSection` (create if missing, otherwise just make current). -/
def Ctx.ensureSection (ctx : Ctx) (name : String) : Ctx :=
  if alHasKey ctx.sections name then { ctx with current := name }
  else ctx.switchSection name

/-- Resolve the current section, applying the `getCurrentSection` fallback
(`ensureSection(".text")` when no current section is set). -/
def Ctx.normCurrent (ctx : Ctx) : Ctx :=
  if ctx.current = "" then ctx.ensureSection ".text" else ctx

/-- Read the current section (after `normCurrent` the lookup succeeds;
the default is never reached from the driver's entry points). -/
def Ctx.curSec (ctx : Ctx) : Sec :=
  (alGet ctx.normCurrent.sections ctx.normCurrent.current).getD {}

/-- Mutate through the `getCurrentSection()` reference; a missing entry is
default-created first (`operator[]` semantics — never reached from the
driver's entry points, which keep the current name backed by an entry). -/
def Ctx.modifyCurSec (ctx : Ctx) (f : Sec → Sec) : Ctx :=
  let ctx1 := ctx.normCurrent
  if alHasKey ctx1.sections ctx1.current then
    { ctx1 with sections := alSet ctx1.sections ctx1.current f }
  else
    { ctx1 with sections := ctx1.sections ++ [(ctx1.current, f {})] }

/-- `AssemblyContext::getSymbol`. -/
def Ctx.getSymbol (ctx : Ctx) (name : String) : Option Sym :=
  alGet ctx.symbols name

/-- Mutate an existing symbol in place (the `Symbol*` write-through used
by pass 2); a missing symbol is left untouched, as the C++ null check
does. -/
def Ctx.modifySymbol (ctx : Ctx) (name : String) (f : Sym → Sym) : Ctx :=
  { ctx with symbols := alSet ctx.symbols name f }

/-- `AssemblyContext::addGlobalSymbol`: `operator[]` creates a default
symbol when absent; then name and Global binding are set. -/
def Ctx.addGlobalSymbol (ctx : Ctx) (name : String) : Ctx :=
  if alHasKey ctx.symbols name then
    ctx.modifySymbol name (fun s => { s with name := name, binding := .globalB })
  else
    { ctx with symbols := ctx.symbols ++ [(name, { name := name, binding := .globalB })] }

/-- `AssemblyContext::addRelocation`. -/
def Ctx.addRelocation (ctx : Ctx) (r : RelocationEntry) : Ctx :=
  { ctx with relocations := ctx.relocations ++ [r] }

/-- `AssemblyContext::addSymbol`: update an undefined entry, reject a
second definition (`AssemblyException`, carried as the `Except` error),
otherwise insert. -/
def Ctx.addSymbol (ctx : Ctx) (name : String) (sym : Sym) : Except String Ctx :=
  match alGet ctx.symbols name with
  | some old =>
    if ¬ old.defined then
      .ok (ctx.modifySymbol name (fun _ => sym))
    else if sym.defined then
      .error ("Symbol already defined: " ++ name)
    else
      .ok ctx
  | none => .ok { ctx with symbols := ctx.symbols ++ [(name, sym)] }

/-! ## Driver state and small helpers -/

/-- The driver-visible state threaded through a run: the assembly context
plus the assembler's accumulated diagnostic list (`m_errors`).  Every
`error(...)` call in `assembler.cpp` is invoked with the default (empty)
source location, so a recorded diagnostic is exactly its message text. -/
structure St where
  ctx : Ctx := {}
  errs : List String := []
deriving DecidableEq, Repr

/-- Record one diagnostic (`Assembler::error`). -/
def St.err (st : St) (msg : String) : St :=
  { st with errs := st.errs ++ [msg] }

/-- Update the context. -/
def St.withCtx (st : St) (ctx : Ctx) : St := { st with ctx := ctx }

/-- ASCII lower-casing of one character (`::tolower`). -/
def asciiLowerChar (c : Char) : Char :=
  if 65 <= c.toNat ∧ c.toNat <= 90 then Char.ofNat (c.toNat + 32) else c

/-- ASCII lower-casing (`std::transform` with `::tolower`; all names in
play are ASCII). -/
def asciiLower (s : String) : String := String.mk (s.data.map asciiLowerChar)

/-- Value of a decimal digit string (the successful path of `std::stoul`
on the maximal digit run, truncated to `uint32_t`). -/
def digitsToNat (cs : List Char) : Nat :=
  cs.foldl (fun acc c => acc * 10 + (c.toNat - 48)) 0

/-- `Assembler::getRegisterIndex`: strip a leading `r`, convert the digit
run, error (and return 0) when there are no digits. -/
def getRegisterIndex (st : St) (name : String) : St × Nat :=
  let numStr := if name.length > 1 ∧ name.front = 'r' then name.drop 1 else name
  let digits := numStr.toList.takeWhile Char.isDigit
  if digits.isEmpty then
    (st.err ("Invalid register name: " ++ name), 0)
  else
    (st, digitsToNat digits % 4294967296)

/-- Reinterpret an integer as a signed 32-bit value
(`static_cast<int32_t>` of an `i64`). -/
def wrapI32 (v : Int) : Int := (v + 2147483648) % 4294967296 - 2147483648

/-- `Assembler::stringToValueType` (the data-directive names; the error
fallback of the C++ function is unreachable from `processDirective`,
which only passes the ten names below). -/
def stringToValueType (name : String) : CValueType :=
  if name = "i8" then .i8 else if name = "i16" then .i16
  else if name = "i32" then .i32 else if name = "i64" then .i64
  else if name = "u8" then .u8 else if name = "u16" then .u16
  else if name = "u32" then .u32 else if name = "u64" then .u64
  else if name = "f32" then .f32 else if name = "f64" then .f64
  else .i32

/-- The IEEE-754 single bit pattern of `static_cast<float>` of an integer.
Floating-point rounding is not modelled in this development; the value of
this function is irrelevant to every property proved here (only the byte
width of its serialization, four, matters). -/
def f32OfIntBits (_v : Int) : Nat := 0

/-- The IEEE-754 double bit pattern of `static_cast<double>` of an
integer; like `f32OfIntBits`, only its serialized width (eight bytes)
matters to the properties proved here. -/
def f64OfIntBits (_v : Int) : Nat := 0

/-- The `ostringstream` rendering of a floating-point section name
operand.  Floating-point formatting is not modelled; no claim (and no
test scenario of the spec) exercises a float-valued section name. -/
def f64FormatBits (_b32 _b64 : Nat) : String := ""

/-- View raw `std::string` bytes as a Lean string key (byte-faithful for
the ASCII names that occur). -/
def stringOfBytes (bs : List Nat) : String := String.mk (bs.map Char.ofNat)

/-- The section name extracted from the first operand of a `section`
directive (`assembler.cpp` lines 126–152 / 515–541): label operands and
immediates are accepted, other operand kinds are rejected with the
diagnostic returned as `Except.error`. -/
def sectionNameOfOp (op : Operand) : Except String String :=
  match op with
  | .label name => .ok name
  | .immediate (.stringV s) => .ok (stringOfBytes s)
  | .immediate (.charV c) => .ok (String.mk [Char.ofNat c])
  | .immediate (.intV v) => .ok (toString v)
  | .immediate (.floatV b32 b64) => .ok (f64FormatBits b32 b64)
  | _ => .error "Section name must be a label reference or immediate value"

/-- One `.section` parameter (the loop body duplicated at
`assembler.cpp` lines 158–195 and 547–584): type names set the section
type, flag names or-in the flag, anything else is a diagnostic. -/
def applySectionParam (st : St) (param : Operand) : St :=
  match param with
  | .label paramName =>
    let p := asciiLower paramName
    if p = "progbits" then st.withCtx (st.ctx.modifyCurSec (fun s => { s with type := .progBits }))
    else if p = "nobits" then st.withCtx (st.ctx.modifyCurSec (fun s => { s with type := .noBits }))
    else if p = "symtab" then st.withCtx (st.ctx.modifyCurSec (fun s => { s with type := .symTab }))
    else if p = "strtab" then st.withCtx (st.ctx.modifyCurSec (fun s => { s with type := .strTab }))
    else if p = "write" then st.withCtx (st.ctx.modifyCurSec (fun s => { s with flags := { s.flags with write := true } }))
    else if p = "code" then st.withCtx (st.ctx.modifyCurSec (fun s => { s with flags := { s.flags with code := true } }))
    else if p = "alloc" then st.withCtx (st.ctx.modifyCurSec (fun s => { s with flags := { s.flags with alloc := true } }))
    else if p = "merge" then st.withCtx (st.ctx.modifyCurSec (fun s => { s with flags := { s.flags with merge := true } }))
    else if p = "tls" then st.withCtx (st.ctx.modifyCurSec (fun s => { s with flags := { s.flags with tls := true } }))
    else st.err ("Unknown section parameter: " ++ paramName)
  | _ => st.err "Section parameter must be a label reference"

/-- The `section` directive handler, byte-for-byte identical in pass 1
(`collectSymbols`) and pass 2 (`processDirective`). -/
def applySectionDirective (st : St) (d : Directive) : St :=
  match d.operands with
  | [] => st.err "Section directive requires a name operand"
  | op :: params =>
    match sectionNameOfOp op with
    | .error msg => st.err msg
    | .ok sectionName =>
      let st1 := st.withCtx (st.ctx.switchSection sectionName)
      params.foldl applySectionParam st1

/-- The `global` directive handler, identical in both passes. -/
def applyGlobalDirective (st : St) (d : Directive) : St :=
  match d.operands with
  | [] => st.err "Global directive requires a label operand"
  | op :: _ =>
    match op with
    | .label l => st.withCtx (st.ctx.addGlobalSymbol l)
    | _ => st.err "Global symbol must be a label reference"

/-! ## Pass 1 — `Assembler::collectSymbols` -/

/-- The symbol a pass-1 definition records
(`value = current offset`, local, `NoType`, defined). -/
def pass1Symbol (ctx : Ctx) (label : String) : Sym :=
  { name := label, value := ctx.curSec.currentOffset,
    sectionName := ctx.normCurrent.current, type := .noType,
    binding := .localB, defined := true }

/-- Define a statement label in pass 1 (`ctx.addSymbol`, which throws on a
duplicate definition; the throw carries the diagnostics recorded so
far). -/
def collectLabel (st : St) (label : String) : Except (List String × String) St :=
  let ctx1 := st.ctx.normCurrent
  match ctx1.addSymbol label (pass1Symbol ctx1 label) with
  | .error msg => .error (st.errs, msg)
  | .ok ctx2 => .ok { st with ctx := ctx2 }

/-- The pass-1 size estimate of the string directives (`ascii` emits the
byte length, `asciiz` one more). -/
def collectStringOps (name : String) (ops : List Operand) (st : St) : St :=
  ops.foldl (fun st op =>
    match op with
    | .immediate (.stringV s) =>
      let strSize := s.length + (if name = "asciiz" then 1 else 0)
      st.withCtx (st.ctx.modifyCurSec (fun sec => { sec with currentOffset := sec.currentOffset + strSize }))
    | .immediate _ => st.err "String operand must be a string literal"
    | _ => st.err "String operand must be an immediate value") st

/-- One pass-1 step (`collectSymbols` loop body): define labels, track
section switches, advance the size estimate of every directive, and
reserve a conservative eight bytes per instruction. -/
def collectStep (st : St) (stmt : Statement) : Except (List String × String) St :=
  match stmt with
  | .empty => .ok st
  | .labelOnly label => collectLabel st label
  | .dir label d =>
    let name := d.name
    if name = "section" then .ok (applySectionDirective st d)
    else if name = "global" then .ok (applyGlobalDirective st d)
    else if name = "i8" ∨ name = "u8" then
      .ok (st.withCtx (st.ctx.modifyCurSec (fun s => { s with currentOffset := s.currentOffset + d.operands.length })))
    else if name = "i16" ∨ name = "u16" then
      .ok (st.withCtx (st.ctx.modifyCurSec (fun s => { s with currentOffset := s.currentOffset + d.operands.length * 2 })))
    else if name = "i32" ∨ name = "u32" ∨ name = "f32" then
      .ok (st.withCtx (st.ctx.modifyCurSec (fun s => { s with currentOffset := s.currentOffset + d.operands.length * 4 })))
    else if name = "i64" ∨ name = "u64" ∨ name = "f64" then
      .ok (st.withCtx (st.ctx.modifyCurSec (fun s => { s with currentOffset := s.currentOffset + d.operands.length * 8 })))
    else if name = "ascii" ∨ name = "asciiz" then
      .ok (collectStringOps name d.operands st)
    else if name = "zero" then
      .ok (match d.operands with
        | [] => st.err "Zero directive requires a size operand"
        | op :: _ =>
          match op with
          | .immediate (.intV v) =>
            st.withCtx (st.ctx.modifyCurSec (fun s => { s with currentOffset := s.currentOffset + toU64 v }))
          | .immediate _ => st.err "Zero size must be an integer"
          | _ => st.err "Zero size must be an immediate value")
    else if name = "align" then
      .ok (match d.operands with
        | [] => st.err "Align directive requires an alignment operand"
        | op :: _ =>
          match op with
          | .immediate (.intV v) =>
            let alignment := toU64 v
            if alignment = 0 ∨ (alignment &&& (alignment - 1)) ≠ 0 then
              st.err "Alignment must be a power of 2"
            else
              st.withCtx (st.ctx.modifyCurSec (fun s =>
                { s with currentOffset := s.currentOffset + (alignment - s.currentOffset % alignment) % alignment }))
          | .immediate _ => st.err "Alignment must be an integer"
          | _ => st.err "Alignment must be an immediate value")
    else
      -- an unrecognized directive name: only here does pass 1 define an
      -- attached label (the recognized directives `continue` beforehand)
      if label ≠ "" then collectLabel st label else .ok st
  | .instr label _i => do
    let st1 ← if label ≠ "" then collectLabel st label else .ok st
    .ok (st1.withCtx (st1.ctx.modifyCurSec (fun s => { s with currentOffset := s.currentOffset + 8 })))

/-- Pass 1 (`Assembler::collectSymbols`): ensure `.text`, then fold the
statement list; a duplicate definition aborts the pass by exception. -/
def collectSymbols (stmts : List Statement) : Except (List String × String) St :=
  stmts.foldlM collectStep { ctx := Ctx.ensureSection {} ".text" }

/-! ## The encoder — `Assembler::encodeInstruction` -/

/-- The payload of one present operand (the `encodeOperand` lambda):
always four bytes; 64-bit immediates truncate to their low four bytes. -/
def encodeOperand (op : COperand) : List Nat :=
  match op.type with
  | .regT => le4 (op.reg % 4294967296)
  | .immT =>
    match op.valueType with
    | .i8 | .u8 => [toU8 op.imm, 0, 0, 0]
    | .i16 | .u16 => le2 (toU16 op.imm) ++ [0, 0]
    | .i32 | .u32 | .f32 => le4 (toU32 op.imm)
    | .i64 | .u64 | .f64 => le4 (toU32 op.imm)
  | .memT => le2 (op.memBase % 65536) ++ le2 (toU16 op.memOffset)
  | .labelT => le4 (op.labelIdx % 4294967296)
  | .noneT => le4 0

/-- `Assembler::encodeInstruction`: 4-byte header (opcode, flag0, packed
operand-type nibbles, reserved zero) followed by the payloads of the
present operands in dest, src1, src2 order. -/
def encodeInstruction (ci : CInstruction) : List Nat :=
  [ci.opcode % 256, ci.flag0 % 256,
   (ci.dest.type.code <<< 4) ||| (ci.src1.type.code <<< 2) ||| ci.src2.type.code, 0]
  ++ (if ci.dest.type ≠ .noneT then encodeOperand ci.dest else [])
  ++ (if ci.src1.type ≠ .noneT then encodeOperand ci.src1 else [])
  ++ (if ci.src2.type ≠ .noneT then encodeOperand ci.src2 else [])

/-! ## Operand conversion — `Assembler::convertOperand` -/

/-- `Assembler::convertOperand`: translate one AST operand into a coil
operand, threading the driver state (diagnostics; for an unresolved label
a relocation recorded at the *current* section offset). -/
def convertOperand (st : St) (op : Operand) (defaultType : CValueType := .i32) : St × COperand :=
  match op with
  | .register name =>
    let (st1, regIndex) := getRegisterIndex st name
    (st1, createRegOp regIndex defaultType)
  | .immediate v =>
    match v with
    | .intV i => (st, createImmOpInt i defaultType)
    | .floatV b32 b64 =>
      (st, createImmOpFp b32 b64
        (if defaultType = .f32 ∨ defaultType = .f64 then defaultType else .f64))
    | .charV c => (st, createImmOpInt c defaultType)
    | .stringV _ =>
      (st.err "String immediate not supported as operand", createImmOpInt 0 defaultType)
  | .memory m =>
    let (st1, regIndex) := getRegisterIndex st m.reg
    (st1, createMemOp regIndex (wrapI32 m.offset) defaultType)
  | .label labelName =>
    let ctx1 := st.ctx.normCurrent
    let reloc : RelocationEntry :=
      { symbolName := labelName, sectionName := ctx1.current,
        offset := ctx1.curSec.currentOffset, size := 4,
        isRelative := false, addend := 0 }
    match ctx1.getSymbol labelName with
    | some sym =>
      if sym.defined then
        if sym.sectionName = ctx1.current then
          ({ st with ctx := ctx1 },
           createImmOpInt (wrapI64 ((sym.value : Int) - (ctx1.curSec.currentOffset : Int) - 4)) .i32)
        else
          ({ st with ctx := ctx1 }, createImmOpInt (wrapI64 (sym.value : Int)) .i32)
      else
        ({ st with ctx := ctx1.addRelocation reloc }, createImmOpInt 0 .i32)
    | none =>
      ({ st with ctx := ctx1.addRelocation reloc }, createImmOpInt 0 .i32)

/-! ## Data emission — `AssemblyContext::addImmediate` / `addString` -/

/-- `AssemblyContext::addImmediate`: serialize one immediate into the
current section at the width selected by the value type (the
sequence of `addByte` calls of the C++ switch). -/
def Ctx.addImmediate (ctx : Ctx) (v : ImmediateValue) (t : CValueType) : Ctx :=
  ctx.modifyCurSec (fun sec =>
    match t with
    | .i8 | .u8 =>
      sec.addData [match v with
        | .intV i => toU8 i
        | .charV c => c % 256
        | _ => 0]
    | .i16 | .u16 =>
      sec.addData (le2 (match v with
        | .intV i => toU16 i
        | .charV c => c % 65536
        | _ => 0))
    | .i32 | .u32 =>
      sec.addData (le4 (match v with
        | .intV i => toU32 i
        | .charV c => c % 4294967296
        | .floatV b32 _ => b32 % 4294967296
        | _ => 0))
    | .i64 | .u64 =>
      sec.addData (le8 (match v with
        | .intV i => toU64 i
        | .charV c => c % 18446744073709551616
        | .floatV _ b64 => b64 % 18446744073709551616
        | _ => 0))
    | .f32 =>
      sec.addData (le4 (match v with
        | .intV i => f32OfIntBits i % 4294967296
        | .floatV b32 _ => b32 % 4294967296
        | _ => 0))
    | .f64 =>
      sec.addData (le8 (match v with
        | .intV i => f64OfIntBits i % 18446744073709551616
        | .floatV _ b64 => b64 % 18446744073709551616
        | _ => 0)))

/-- `AssemblyContext::addString`: emit the raw bytes, plus a NUL when
null-terminated. -/
def Ctx.addString (ctx : Ctx) (s : List Nat) (nullTerminated : Bool) : Ctx :=
  ctx.modifyCurSec (fun sec =>
    let sec1 := s.foldl (fun sec c => sec.addByte (c % 256)) sec
    if nullTerminated then sec1.addByte 0 else sec1)

/-! ## Pass 2 — `Assembler::processDirective` / `processInstruction` -/

/-- The pass-2 write-through of a statement label (`assembler.cpp` lines
607–615 and 730–739): an *existing* symbol is repositioned to the current
offset; a label that never entered the symbol table is silently
dropped. -/
def applyLabelUpdate (ctx : Ctx) (label : String) (symType : Option CSymbolType) : Ctx :=
  if label ≠ "" then
    match ctx.getSymbol label with
    | some _ =>
      let ctx1 := ctx.normCurrent
      ctx1.modifySymbol label (fun s =>
        let s1 := { s with value := ctx1.curSec.currentOffset, defined := true,
                           sectionName := ctx1.current }
        match symType with
        | some t => { s1 with type := t }
        | none => s1)
    | none => ctx
  else ctx

/-- `Assembler::processDirective` (pass 2): section and global directives
first, then the label write-through, then data emission. -/
def processDirective (st : St) (d : Directive) (label : String) : St :=
  let name := d.name
  if name = "section" then applySectionDirective st d
  else if name = "global" then applyGlobalDirective st d
  else
    let st := st.withCtx (applyLabelUpdate st.ctx label none)
    if name = "i8" ∨ name = "u8" ∨ name = "i16" ∨ name = "u16" ∨
       name = "i32" ∨ name = "u32" ∨ name = "i64" ∨ name = "u64" ∨
       name = "f32" ∨ name = "f64" then
      let t := stringToValueType name
      d.operands.foldl (fun st op =>
        match op with
        | .immediate v => st.withCtx (st.ctx.addImmediate v t)
        | _ => st.err "Data directive operand must be an immediate value") st
    else if name = "ascii" ∨ name = "asciiz" then
      d.operands.foldl (fun st op =>
        match op with
        | .immediate (.stringV s) => st.withCtx (st.ctx.addString s (name = "asciiz"))
        | .immediate _ => st.err "String operand must be a string literal"
        | _ => st.err "String operand must be an immediate value") st
    else if name = "zero" then
      match d.operands with
      | [] => st.err "Zero directive requires a size operand"
      | op :: _ =>
        match op with
        | .immediate (.intV v) =>
          st.withCtx (st.ctx.modifyCurSec (fun s => s.addData (List.replicate (toU64 v) 0)))
        | .immediate _ => st.err "Zero size must be an integer"
        | _ => st.err "Zero size must be an immediate value"
    else if name = "align" then
      match d.operands with
      | [] => st.err "Align directive requires an alignment operand"
      | op :: _ =>
        match op with
        | .immediate (.intV v) =>
          let alignment := toU64 v
          if alignment = 0 ∨ (alignment &&& (alignment - 1)) ≠ 0 then
            st.err "Alignment must be a power of 2"
          else
            st.withCtx (st.ctx.modifyCurSec (fun s =>
              s.addData (List.replicate ((alignment - s.currentOffset % alignment) % alignment) 0)))
        | .immediate _ => st.err "Alignment must be an integer"
        | _ => st.err "Alignment must be an immediate value"
    else
      st.err ("Unknown directive: " ++ name)

/-- `Assembler::processInstruction` (pass 2): label write-through (typed
`Func`), parameter flags, opcode lookup, operand conversion (all against
the offset of the instruction start), then one `addData` of the encoded
bytes.  Unknown mnemonics and more than three operands are diagnostics
that append nothing. -/
def processInstruction (st : St) (i : Instruction) (label : String) : St :=
  let st := st.withCtx (applyLabelUpdate st.ctx label (some .funcT))
  let name := asciiLower i.name
  let flag0 := flagOfParams i.params
  match mnemonicOpcode name with
  | none => st.err ("Unknown instruction: " ++ name)
  | some opcode =>
    match i.operands with
    | [] =>
      let ci : CInstruction := { opcode := opcode, flag0 := flag0 }
      st.withCtx (st.ctx.modifyCurSec (fun s => s.addData (encodeInstruction ci)))
    | [o1] =>
      let (st, dest) := convertOperand st o1
      let ci : CInstruction := { opcode := opcode, flag0 := flag0, dest := dest }
      st.withCtx (st.ctx.modifyCurSec (fun s => s.addData (encodeInstruction ci)))
    | [o1, o2] =>
      let (st, dest) := convertOperand st o1
      let (st, src1) := convertOperand st o2
      let ci : CInstruction := { opcode := opcode, flag0 := flag0, dest := dest, src1 := src1 }
      st.withCtx (st.ctx.modifyCurSec (fun s => s.addData (encodeInstruction ci)))
    | [o1, o2, o3] =>
      let (st, dest) := convertOperand st o1
      let (st, src1) := convertOperand st o2
      let (st, src2) := convertOperand st o3
      let ci : CInstruction := { opcode := opcode, flag0 := flag0, dest := dest, src1 := src1, src2 := src2 }
      st.withCtx (st.ctx.modifyCurSec (fun s => s.addData (encodeInstruction ci)))
    | _ => st.err ("Too many operands for instruction: " ++ name)

/-- One pass-2 step (`generateCode` loop body). -/
def pass2Step (st : St) (stmt : Statement) : St :=
  match stmt with
  | .empty => st
  | .labelOnly label =>
    match st.ctx.getSymbol label with
    | some _ =>
      let ctx1 := st.ctx.normCurrent
      st.withCtx (ctx1.modifySymbol label (fun s =>
        { s with value := ctx1.curSec.currentOffset, defined := true,
                 sectionName := ctx1.current }))
    | none => st
  | .dir label d => processDirective st d label
  | .instr label i => processInstruction st i label

/-- The pass-2 reset (`generateCode` preamble): clear every section's data
and offset, then re-enter `.text`. -/
def resetSections (ctx : Ctx) : Ctx :=
  let ctx1 := { ctx with
    sections := ctx.sections.map (fun (p : String × Sec) =>
      (p.1, { p.2 with data := [], currentOffset := 0 })) }
  ctx1.switchSection ".text"

/-- Pass 2 (`Assembler::generateCode`). -/
def generateCode (stmts : List Statement) (st : St) : St :=
  stmts.foldl pass2Step { st with ctx := resetSections st.ctx }

/-! ## Object generation — `Assembler::generateObject` -/

/-- A section of the generated object (the arguments the driver hands to
`coil::Object::addSection`; the string-table indirection of the external
container is represented by the name itself). -/
structure ObjSection where
  name : String
  flags : CSectionFlags
  type : CSectionType
  size : Nat
  data : List Nat
deriving DecidableEq, Repr

/-- A symbol of the generated object (`coil::Object::addSymbol`
arguments; `value` is truncated to `u32` by the driver). -/
structure ObjSymbol where
  name : String
  value : Nat
  sectionIndex : Nat
  type : CSymbolType
  binding : CSymbolBinding
deriving DecidableEq, Repr

/-- The generated object: string table, sections and symbols in emission
order. -/
structure Obj where
  strings : List String := []
  sections : List ObjSection := []
  symbols : List ObjSymbol := []
deriving DecidableEq, Repr

/-- `coil::Object::getSectionIndex`: 1-based index of a section name,
0 when absent. -/
def Obj.getSectionIndex (o : Obj) (name : String) : Nat :=
  match o.sections.findIdx? (fun s => s.name = name) with
  | some i => i + 1
  | none => 0

/-- The skip test of the section loop (`assembler.cpp` lines 441–444):
empty progbits-like sections, and no-bits sections with zero size. -/
def skipSec (s : Sec) : Bool :=
  (s.type ≠ .noBits ∧ s.data = []) ∨ (s.type = .noBits ∧ s.currentOffset = 0)

/-- Emit one section if its name resolves and it is not skipped. -/
def emitSection (ctx : Ctx) (o : Obj) (n : String) : Obj :=
  match alGet ctx.sections n with
  | none => o
  | some s =>
    if skipSec s then o
    else { o with strings := o.strings ++ [n],
                  sections := o.sections ++ [⟨n, s.flags, s.type, s.data.length, s.data⟩] }

/-- Emit one symbol, with the undefined-symbol and missing-section
diagnostics of the symbol loop (`assembler.cpp` lines 464–498). -/
def emitSymbol (ctx : Ctx) (allowUnresolved : Bool) (acc : Obj × List String) (n : String) :
    Obj × List String :=
  match alGet ctx.symbols n with
  | none => acc
  | some sym =>
    if ¬ sym.defined ∧ ¬ allowUnresolved then
      (acc.1, acc.2 ++ ["Undefined symbol: " ++ n])
    else if ¬ alHasKey ctx.sections sym.sectionName then
      acc
    else
      let idx := acc.1.getSectionIndex sym.sectionName
      if idx = 0 then
        (acc.1, acc.2 ++ ["Could not find section '" ++ sym.sectionName ++ "' for symbol '" ++ n ++ "'"])
      else
        ({ acc.1 with strings := acc.1.strings ++ [n],
                      symbols := acc.1.symbols ++ [⟨n, sym.value % 4294967296, idx, sym.type, sym.binding⟩] },
         acc.2)

/-- `Assembler::generateObject`.  The C++ iterates two
`std::unordered_map`s, whose enumeration order the language leaves
unspecified; the orders are therefore explicit parameters (`secEnum`,
`symEnum`), constrained in the theorems to be permutations of the stored
keys where that matters. -/
def generateObject (st : St) (allowUnresolved : Bool) (secEnum symEnum : List String) :
    Obj × List String :=
  let obj := secEnum.foldl (emitSection st.ctx) {}
  symEnum.foldl (emitSymbol st.ctx allowUnresolved) (obj, st.errs)

/-! ## The driver — `Assembler::assemble` -/

/-- What a run returns: the object (absent when an `AssemblyException`
aborted the run and an empty `AssemblyResult` was returned) and the
diagnostic list. -/
structure AsmOutput where
  obj : Option Obj := none
  errors : List String := []
deriving DecidableEq, Repr

/-- Pass 1 followed by pass 2 (the part of `Assembler::assemble` before
object generation). -/
def runPasses (stmts : List Statement) : Except (List String × String) St :=
  match collectSymbols stmts with
  | .error e => .error e
  | .ok st => .ok (generateCode stmts st)

/-- `Assembler::assemble`: both passes, then object generation; an
`AssemblyException` is caught and recorded (prefixed by the
`CasmException` constructor) after the diagnostics accumulated so far,
and an empty result is returned. -/
def assemble (stmts : List Statement) (allowUnresolved : Bool)
    (secEnum symEnum : List String) : AsmOutput :=
  match runPasses stmts with
  | .error (errs, msg) => { obj := none, errors := errs ++ ["Assembly error: " ++ msg] }
  | .ok st =>
    let (obj, errs) := generateObject st allowUnresolved secEnum symEnum
    { obj := some obj, errors := errs }

/-! ## Observation helpers -/

/-- The data bytes of a named section in a context. -/
def Ctx.secData (ctx : Ctx) (name : String) : List Nat :=
  ((alGet ctx.sections name).map Sec.data).getD []

/-- The data bytes of a named section in a driver state. -/
def St.secData (st : St) (name : String) : List Nat :=
  st.ctx.secData name

/-- The stored key list of the section map (first-reference order). -/
def Ctx.sectionKeys (ctx : Ctx) : List String := ctx.sections.map Prod.fst

/-- The stored key list of the symbol map (first-record order). -/
def Ctx.symbolKeys (ctx : Ctx) : List String := ctx.symbols.map Prod.fst

/-! ## Association-list lemmas -/

theorem alGet_alSet {α : Type} (l : List (String × α)) (k : String) (f : α → α) (j : String) :
    alGet (alSet l k f) j = if j = k then (alGet l k).map f else alGet l j := by
  induction l with
  | nil => simp [alGet, alSet]
  | cons hd tl ih =>
    obtain ⟨k1, v⟩ := hd
    by_cases h1 : k1 = k
    · subst h1
      by_cases h2 : j = k1
      · subst h2; simp [alGet, alSet]
      · have h2s : ¬ k1 = j := fun h => h2 h.symm
        simp [alGet, alSet, h2, h2s]
    · by_cases h2 : k1 = j
      · subst h2
        have hjk : ¬ k1 = k := h1
        simp [alGet, alSet, h1, hjk]
      · simp [alGet, alSet, h1, h2, ih]

theorem alGet_append_left {α : Type} {l1 : List (String × α)} (l2 : List (String × α))
    {j : String} {v : α} (h : alGet l1 j = some v) : alGet (l1 ++ l2) j = some v := by
  induction l1 with
  | nil => simp [alGet] at h
  | cons hd tl ih =>
    obtain ⟨k1, w⟩ := hd
    by_cases h1 : k1 = j
    · simp [alGet, h1] at h ⊢; exact h
    · simp [alGet, h1] at h ⊢; exact ih h

theorem alGet_append_right {α : Type} {l1 : List (String × α)} (l2 : List (String × α))
    {j : String} (h : alGet l1 j = none) : alGet (l1 ++ l2) j = alGet l2 j := by
  induction l1 with
  | nil => simp [alGet]
  | cons hd tl ih =>
    obtain ⟨k1, w⟩ := hd
    by_cases h1 : k1 = j
    · simp [alGet, h1] at h
    · simp [alGet, h1] at h ⊢; exact ih h

theorem alHasKey_eq_isSome {α : Type} (l : List (String × α)) (k : String) :
    alHasKey l k = (alGet l k).isSome := by
  induction l with
  | nil => simp [alHasKey, alGet]
  | cons hd tl ih =>
    obtain ⟨k1, v⟩ := hd
    by_cases h1 : k1 = k
    · simp [alHasKey, alGet, h1]
    · simp [alHasKey, alGet, h1, ih]

theorem alSet_absent {α : Type} {l : List (String × α)} {k : String} (f : α → α)
    (h : alGet l k = none) : alSet l k f = l := by
  induction l with
  | nil => simp [alSet]
  | cons hd tl ih =>
    obtain ⟨k1, v⟩ := hd
    by_cases h1 : k1 = k
    · simp [alGet, h1] at h
    · simp [alGet, h1] at h
      simp [alSet, h1, ih h]

theorem alSet_stored_fix {α : Type} {l : List (String × α)} {k : String} {f : α → α} {v : α}
    (h : alGet l k = some v) (hf : f v = v) : alSet l k f = l := by
  induction l with
  | nil => simp [alGet] at h
  | cons hd tl ih =>
    obtain ⟨k1, w⟩ := hd
    by_cases h1 : k1 = k
    · simp [alGet, h1] at h
      subst h
      simp [alSet, h1, hf]
    · simp [alGet, h1] at h
      simp [alSet, h1, ih h]

/-- Membership view of a successful lookup. -/
theorem alGet_mem {α : Type} {l : List (String × α)} {k : String} {v : α}
    (h : alGet l k = some v) : (k, v) ∈ l := by
  induction l with
  | nil => simp [alGet] at h
  | cons hd tl ih =>
    obtain ⟨k1, w⟩ := hd
    by_cases h1 : k1 = k
    · simp [alGet, h1] at h
      subst h1; subst h
      exact List.mem_cons_self _ _
    · simp [alGet, h1] at h
      exact List.mem_cons_of_mem _ (ih h)

/-! ## Context lemmas -/

theorem switchSection_current (ctx : Ctx) (n : String) : (ctx.switchSection n).current = n := rfl

theorem switchSection_symbols (ctx : Ctx) (n : String) :
    (ctx.switchSection n).symbols = ctx.symbols := rfl

theorem ensureSection_symbols (ctx : Ctx) (n : String) :
    (ctx.ensureSection n).symbols = ctx.symbols := by
  unfold Ctx.ensureSection
  split <;> rfl

theorem normCurrent_symbols (ctx : Ctx) : ctx.normCurrent.symbols = ctx.symbols := by
  unfold Ctx.normCurrent
  split
  · exact ensureSection_symbols ctx ".text"
  · rfl

theorem normCurrent_relocations (ctx : Ctx) : ctx.normCurrent.relocations = ctx.relocations := by
  unfold Ctx.normCurrent Ctx.ensureSection Ctx.switchSection
  split
  · split <;> rfl
  · rfl

theorem normCurrent_of_ne {ctx : Ctx} (h : ctx.current ≠ "") : ctx.normCurrent = ctx := by
  unfold Ctx.normCurrent
  simp [h]

theorem ensureSection_current (ctx : Ctx) (n : String) : (ctx.ensureSection n).current = n := by
  unfold Ctx.ensureSection
  split <;> rfl

theorem normCurrent_current_ne (ctx : Ctx) : ctx.normCurrent.current ≠ "" := by
  unfold Ctx.normCurrent
  split
  · rw [ensureSection_current]
    intro h
    exact absurd h (by decide)
  · next h => exact h

theorem normCurrent_idem (ctx : Ctx) : ctx.normCurrent.normCurrent = ctx.normCurrent :=
  normCurrent_of_ne (normCurrent_current_ne ctx)

theorem curSec_normCurrent (ctx : Ctx) : ctx.normCurrent.curSec = ctx.curSec := by
  unfold Ctx.curSec
  rw [normCurrent_idem]

theorem secData_normCurrent (ctx : Ctx) (n : String) :
    ctx.normCurrent.secData n = ctx.secData n := by
  unfold Ctx.normCurrent Ctx.ensureSection Ctx.switchSection Ctx.secData
  split
  · split
    · rfl
    · next hk =>
      simp only
      rw [alHasKey_eq_isSome] at hk
      cases hget : alGet ctx.sections n with
      | some v => rw [alGet_append_left _ hget]
      | none =>
        rw [alGet_append_right _ hget]
        by_cases hn : ".text" = n
        · subst hn
          simp [hget] at hk ⊢
          simp [alGet, defaultSection]
        · simp [alGet, hn]
  · rfl

/-- With a nonempty current name backed by an entry, `curSec` is the
stored section. -/
theorem curSec_eq_of_stored {ctx : Ctx} {s : Sec} (h : ctx.current ≠ "")
    (hs : alGet ctx.sections ctx.current = some s) : ctx.curSec = s := by
  unfold Ctx.curSec
  rw [normCurrent_of_ne h, hs]
  rfl

/-! ## The offset invariant (claim C10) -/

/-- A section record whose running offset equals its data size. -/
def SecFix (s : Sec) : Prop := s.currentOffset = s.data.length

/-- The pass-2 invariant: every stored section's `current_offset` equals
its data size. -/
def OffsetInv (ctx : Ctx) : Prop := ∀ p ∈ ctx.sections, SecFix (Prod.snd p)

instance : DecidablePred SecFix := fun s => by unfold SecFix; infer_instance

instance (ctx : Ctx) : Decidable (OffsetInv ctx) := by unfold OffsetInv; infer_instance

theorem secFix_defaultSection (n : String) : SecFix (defaultSection n) := by
  unfold defaultSection SecFix
  split <;> (try split) <;> (try split) <;> (try split) <;> rfl

theorem secFix_empty : SecFix {} := rfl

theorem secFix_addData {s : Sec} (l : List Nat) (h : SecFix s) : SecFix (s.addData l) := by
  unfold SecFix Sec.addData at *
  simp [h]

theorem secFix_addByte {s : Sec} (b : Nat) (h : SecFix s) : SecFix (s.addByte b) := by
  unfold SecFix Sec.addByte at *
  simp [h]

theorem secFix_keep {s : Sec} (f : Sec → Sec)
    (hdata : (f s).data = s.data) (hoff : (f s).currentOffset = s.currentOffset)
    (h : SecFix s) : SecFix (f s) := by
  unfold SecFix at *
  rw [hdata, hoff, h]

/-- Fold preservation: a property closed under each step is closed under
the fold. -/
theorem foldl_preserve {α β : Type} (P : α → Prop) (f : α → β → α)
    (h : ∀ a b, P a → P (f a b)) : ∀ (l : List β) (a : α), P a → P (List.foldl f a l) := by
  intro l
  induction l with
  | nil => intro a ha; exact ha
  | cons hd tl ih => intro a ha; exact ih (f a hd) (h a hd ha)

theorem offsetInv_append {ctx : Ctx} {n : String} {s : Sec} (h : OffsetInv ctx)
    (hs : SecFix s) : OffsetInv { ctx with sections := ctx.sections ++ [(n, s)] } := by
  intro p hp
  rcases List.mem_append.mp hp with h1 | h1
  · exact h p h1
  · simp at h1
    subst h1
    exact hs

theorem offsetInv_alSet {ctx : Ctx} {k : String} {f : Sec → Sec} (h : OffsetInv ctx)
    (hf : ∀ s, SecFix s → SecFix (f s)) :
    OffsetInv { ctx with sections := alSet ctx.sections k f } := by
  intro p hp
  simp only at hp
  -- a member of `alSet l k f` is a member of `l` or the image of one
  have : ∀ (l : List (String × Sec)), (∀ q ∈ l, SecFix (Prod.snd q)) →
      ∀ q ∈ alSet l k f, SecFix (Prod.snd q) := by
    intro l
    induction l with
    | nil => intro _ q hq; simp [alSet] at hq
    | cons hd tl ih =>
      intro hl q hq
      obtain ⟨k1, v⟩ := hd
      unfold alSet at hq
      by_cases h1 : k1 = k
      · simp [h1] at hq
        rcases hq with hq | hq
        · subst hq
          exact hf v (hl (k1, v) (by simp))
        · exact hl q (List.mem_cons_of_mem _ hq)
      · simp [h1] at hq
        rcases hq with hq | hq
        · subst hq
          exact hl (k1, v) (by simp)
        · exact ih (fun q hq => hl q (List.mem_cons_of_mem _ hq)) q hq
  exact this ctx.sections h p hp

theorem offsetInv_switchSection {ctx : Ctx} (h : OffsetInv ctx) (n : String) :
    OffsetInv (ctx.switchSection n) := by
  unfold Ctx.switchSection
  split
  · exact fun p hp => h p hp
  · exact fun p hp => offsetInv_append h (secFix_defaultSection n) p hp

theorem offsetInv_ensureSection {ctx : Ctx} (h : OffsetInv ctx) (n : String) :
    OffsetInv (ctx.ensureSection n) := by
  unfold Ctx.ensureSection
  split
  · exact fun p hp => h p hp
  · exact offsetInv_switchSection h n

theorem offsetInv_normCurrent {ctx : Ctx} (h : OffsetInv ctx) : OffsetInv ctx.normCurrent := by
  unfold Ctx.normCurrent
  split
  · exact offsetInv_ensureSection h ".text"
  · exact h

theorem offsetInv_modifyCurSec {ctx : Ctx} {f : Sec → Sec} (h : OffsetInv ctx)
    (hf : ∀ s, SecFix s → SecFix (f s)) : OffsetInv (ctx.modifyCurSec f) := by
  unfold Ctx.modifyCurSec
  have h1 : OffsetInv ctx.normCurrent := offsetInv_normCurrent h
  dsimp only
  split
  · exact offsetInv_alSet h1 hf
  · exact offsetInv_append h1 (hf {} secFix_empty)

theorem offsetInv_sections_eq {ctx ctx2 : Ctx} (h : OffsetInv ctx)
    (he : ctx2.sections = ctx.sections) : OffsetInv ctx2 := by
  intro p hp
  rw [he] at hp
  exact h p hp

theorem offsetInv_modifySymbol {ctx : Ctx} (h : OffsetInv ctx) (n : String) (f : Sym → Sym) :
    OffsetInv (ctx.modifySymbol n f) := offsetInv_sections_eq h rfl

theorem offsetInv_addGlobalSymbol {ctx : Ctx} (h : OffsetInv ctx) (n : String) :
    OffsetInv (ctx.addGlobalSymbol n) := by
  unfold Ctx.addGlobalSymbol
  split
  · exact offsetInv_modifySymbol h _ _
  · exact offsetInv_sections_eq h rfl

theorem offsetInv_addRelocation {ctx : Ctx} (h : OffsetInv ctx) (r : RelocationEntry) :
    OffsetInv (ctx.addRelocation r) := offsetInv_sections_eq h rfl

theorem st_err_ctx (st : St) (msg : String) : (st.err msg).ctx = st.ctx := rfl

theorem st_withCtx_ctx (st : St) (ctx : Ctx) : (st.withCtx ctx).ctx = ctx := rfl

theorem offsetInv_applySectionParam {st : St} (param : Operand) (h : OffsetInv st.ctx) :
    OffsetInv (applySectionParam st param).ctx := by
  unfold applySectionParam
  cases param with
  | label name =>
    dsimp only
    repeat' split
    all_goals
      first
      | exact h
      | exact offsetInv_modifyCurSec h (fun s hs => hs)
  | register name => exact h
  | immediate v => exact h
  | memory m => exact h

theorem offsetInv_applySectionDirective {st : St} (d : Directive) (h : OffsetInv st.ctx) :
    OffsetInv (applySectionDirective st d).ctx := by
  unfold applySectionDirective
  split
  · exact h
  · split
    · exact h
    · refine foldl_preserve (fun st => OffsetInv st.ctx) applySectionParam
        (fun st op h => offsetInv_applySectionParam op h) _ _ ?_
      exact offsetInv_switchSection h _

theorem offsetInv_applyGlobalDirective {st : St} (d : Directive) (h : OffsetInv st.ctx) :
    OffsetInv (applyGlobalDirective st d).ctx := by
  unfold applyGlobalDirective
  split
  · exact h
  · split
    · exact offsetInv_addGlobalSymbol h _
    · exact h

theorem offsetInv_applyLabelUpdate {ctx : Ctx} (label : String) (t : Option CSymbolType)
    (h : OffsetInv ctx) : OffsetInv (applyLabelUpdate ctx label t) := by
  unfold applyLabelUpdate
  split
  · split
    · exact offsetInv_modifySymbol (offsetInv_normCurrent h) _ _
    · exact h
  · exact h

theorem offsetInv_addImmediate {ctx : Ctx} (v : ImmediateValue) (t : CValueType)
    (h : OffsetInv ctx) : OffsetInv (ctx.addImmediate v t) := by
  unfold Ctx.addImmediate
  refine offsetInv_modifyCurSec h (fun s hs => ?_)
  cases t <;> exact secFix_addData _ hs

theorem offsetInv_addString {ctx : Ctx} (s : List Nat) (nt : Bool) (h : OffsetInv ctx) :
    OffsetInv (ctx.addString s nt) := by
  unfold Ctx.addString
  refine offsetInv_modifyCurSec h (fun sec hs => ?_)
  dsimp only
  have h1 : SecFix (s.foldl (fun sec c => sec.addByte (c % 256)) sec) :=
    foldl_preserve SecFix _ (fun a b ha => secFix_addByte _ ha) s sec hs
  split
  · exact secFix_addByte _ h1
  · exact h1

theorem getRegisterIndex_ctx (st : St) (name : String) :
    (getRegisterIndex st name).1.ctx = st.ctx := by
  unfold getRegisterIndex
  dsimp only
  split <;> split <;> rfl

theorem offsetInv_convertOperand {st : St} (op : Operand) (t : CValueType)
    (h : OffsetInv st.ctx) : OffsetInv (convertOperand st op t).1.ctx := by
  unfold convertOperand
  cases op with
  | register name =>
    dsimp only
    rw [getRegisterIndex_ctx]
    exact h
  | immediate v => cases v <;> exact h
  | memory m =>
    dsimp only
    rw [getRegisterIndex_ctx]
    exact h
  | label name =>
    dsimp only
    split
    · split
      · split
        · exact offsetInv_normCurrent h
        · exact offsetInv_normCurrent h
      · exact offsetInv_addRelocation (offsetInv_normCurrent h) _
    · exact offsetInv_addRelocation (offsetInv_normCurrent h) _

theorem offsetInv_processInstruction {st : St} (i : Instruction) (label : String)
    (h : OffsetInv st.ctx) : OffsetInv (processInstruction st i label).ctx := by
  unfold processInstruction
  have h0 : OffsetInv (applyLabelUpdate st.ctx label (some .funcT)) :=
    offsetInv_applyLabelUpdate _ _ h
  dsimp only
  split
  · exact h0
  · split
    · exact offsetInv_modifyCurSec h0 (fun s hs => secFix_addData _ hs)
    · exact offsetInv_modifyCurSec (offsetInv_convertOperand _ _ h0)
        (fun s hs => secFix_addData _ hs)
    · exact offsetInv_modifyCurSec
        (offsetInv_convertOperand _ _ (offsetInv_convertOperand _ _ h0))
        (fun s hs => secFix_addData _ hs)
    · exact offsetInv_modifyCurSec
        (offsetInv_convertOperand _ _ (offsetInv_convertOperand _ _ (offsetInv_convertOperand _ _ h0)))
        (fun s hs => secFix_addData _ hs)
    · exact h0

theorem offsetInv_processDirective {st : St} (d : Directive) (label : String)
    (h : OffsetInv st.ctx) : OffsetInv (processDirective st d label).ctx := by
  unfold processDirective
  dsimp only
  split
  · exact offsetInv_applySectionDirective _ h
  · split
    · exact offsetInv_applyGlobalDirective _ h
    · have h0 : OffsetInv (applyLabelUpdate st.ctx label none) :=
        offsetInv_applyLabelUpdate _ _ h
      split
      · refine foldl_preserve (fun (st : St) => OffsetInv st.ctx) _
          (fun st1 op hst => ?_) _ _ h0
        dsimp only
        split
        · exact offsetInv_addImmediate _ _ hst
        · exact hst
      · split
        · refine foldl_preserve (fun (st : St) => OffsetInv st.ctx) _
            (fun st1 op hst => ?_) _ _ h0
          dsimp only
          split
          · exact offsetInv_addString _ _ hst
          · exact hst
          · exact hst
        · split
          · split
            · exact h0
            · split
              · exact offsetInv_modifyCurSec h0 (fun s hs => secFix_addData _ hs)
              · exact h0
              · exact h0
          · split
            · split
              · exact h0
              · split
                · split
                  · exact h0
                  · exact offsetInv_modifyCurSec h0 (fun s hs => secFix_addData _ hs)
                · exact h0
                · exact h0
            · exact h0

theorem offsetInv_pass2Step {st : St} (stmt : Statement) (h : OffsetInv st.ctx) :
    OffsetInv (pass2Step st stmt).ctx := by
  unfold pass2Step
  cases stmt with
  | empty => exact h
  | labelOnly label =>
    dsimp only
    split
    · exact offsetInv_modifySymbol (offsetInv_normCurrent h) _ _
    · exact h
  | dir label d => exact offsetInv_processDirective _ _ h
  | instr label i => exact offsetInv_processInstruction _ _ h

theorem offsetInv_resetSections (ctx : Ctx) : OffsetInv (resetSections ctx) := by
  unfold resetSections
  refine offsetInv_switchSection (fun p hp => ?_) ".text"
  simp only [List.mem_map] at hp
  obtain ⟨q, _, hq⟩ := hp
  rw [← hq]
  rfl

theorem offsetInv_generateCode (stmts : List Statement) (st : St) :
    OffsetInv (generateCode stmts st).ctx := by
  unfold generateCode
  refine foldl_preserve (fun st => OffsetInv st.ctx) pass2Step
    (fun st stmt h => offsetInv_pass2Step stmt h) stmts _ ?_
  exact offsetInv_resetSections st.ctx

/-! ## Pass 2 only appends section data -/

/-- `b` extends `a` on the right. -/
def ListExt {α : Type} (a b : List α) : Prop := ∃ t, b = a ++ t

theorem listExt_refl {α : Type} (a : List α) : ListExt a a := ⟨[], by simp⟩

theorem listExt_trans {α : Type} {a b c : List α} (h1 : ListExt a b) (h2 : ListExt b c) :
    ListExt a c := by
  obtain ⟨t1, h1⟩ := h1
  obtain ⟨t2, h2⟩ := h2
  exact ⟨t1 ++ t2, by simp [h1, h2]⟩

theorem listExt_of_eq {α : Type} {a b : List α} (h : b = a) : ListExt a b := ⟨[], by simp [h]⟩

theorem listExt_nil {α : Type} (b : List α) : ListExt [] b := ⟨b, rfl⟩

/-- Fold preservation where the step hypothesis may depend on membership. -/
theorem foldl_preserve_mem {α β : Type} (P : α → Prop) (f : α → β → α) (l : List β)
    (h : ∀ a, ∀ b ∈ l, P a → P (f a b)) : ∀ a, P a → P (List.foldl f a l) := by
  induction l with
  | nil => intro a ha; exact ha
  | cons hd tl ih =>
    intro a ha
    exact ih (fun a b hb => h a b (List.mem_cons_of_mem _ hb)) (f a hd)
      (h a hd (List.mem_cons_self _ _) ha)

theorem defaultSection_data (n : String) : (defaultSection n).data = [] := by
  unfold defaultSection
  split <;> (try split) <;> (try split) <;> (try split) <;> rfl

theorem secData_switchSection_ext (ctx : Ctx) (n name : String) :
    ListExt (ctx.secData name) ((ctx.switchSection n).secData name) := by
  unfold Ctx.switchSection Ctx.secData
  dsimp only
  split
  · exact listExt_refl _
  · cases hget : alGet ctx.sections name with
    | some v => rw [alGet_append_left _ hget]; exact listExt_refl _
    | none =>
      rw [alGet_append_right _ hget]
      by_cases hn : n = name
      · subst hn
        simp [alGet, defaultSection_data]
        exact listExt_refl _
      · simp [alGet, hn]
        exact listExt_refl _

theorem secData_ensureSection_ext (ctx : Ctx) (n name : String) :
    ListExt (ctx.secData name) ((ctx.ensureSection n).secData name) := by
  unfold Ctx.ensureSection
  split
  · exact listExt_refl _
  · exact secData_switchSection_ext ctx n name

theorem secData_normCurrent_ext (ctx : Ctx) (name : String) :
    ListExt (ctx.secData name) (ctx.normCurrent.secData name) :=
  listExt_of_eq (secData_normCurrent ctx name)

theorem secData_modifyCurSec_ext {f : Sec → Sec} (ctx : Ctx) (name : String)
    (hf : ∀ s, ListExt s.data (f s).data) :
    ListExt (ctx.secData name) ((ctx.modifyCurSec f).secData name) := by
  refine listExt_trans (secData_normCurrent_ext ctx name) ?_
  unfold Ctx.modifyCurSec
  dsimp only
  set ctx1 := ctx.normCurrent with hctx1
  split
  · next hkey =>
    unfold Ctx.secData
    dsimp only
    rw [alGet_alSet]
    by_cases hn : name = ctx1.current
    · rw [if_pos hn]
      rw [alHasKey_eq_isSome] at hkey
      cases hget : alGet ctx1.sections ctx1.current with
      | some v => rw [hn, hget]; exact hf v
      | none => rw [hget] at hkey; simp at hkey
    · rw [if_neg hn]
      exact listExt_refl _
  · next hkey =>
    unfold Ctx.secData
    dsimp only
    cases hget : alGet ctx1.sections name with
    | some v => rw [alGet_append_left _ hget]; exact listExt_refl _
    | none =>
      rw [alGet_append_right _ hget]
      by_cases hn : ctx1.current = name
      · simp [alGet, hn]
        exact listExt_nil _
      · simp [alGet, hn]
        exact listExt_refl _

theorem secData_sections_eq_ext {ctx ctx2 : Ctx} (name : String)
    (he : ctx2.sections = ctx.sections) : ListExt (ctx.secData name) (ctx2.secData name) := by
  unfold Ctx.secData
  rw [he]
  exact listExt_refl _

theorem sec_addData_ext (l : List Nat) : ∀ s : Sec, ListExt s.data (s.addData l).data :=
  fun s => ⟨l, rfl⟩

theorem sec_addByte_ext (b : Nat) : ∀ s : Sec, ListExt s.data (s.addByte b).data :=
  fun s => ⟨[b], rfl⟩

theorem secData_applySectionParam_ext (st : St) (param : Operand) (name : String) :
    ListExt (st.secData name) ((applySectionParam st param).secData name) := by
  unfold applySectionParam St.secData
  cases param with
  | label pn =>
    dsimp only
    repeat' split
    all_goals
      first
      | exact listExt_refl _
      | exact secData_modifyCurSec_ext _ _ (fun s => listExt_of_eq rfl)
  | register n => exact listExt_refl _
  | immediate v => exact listExt_refl _
  | memory m => exact listExt_refl _

theorem secData_applySectionDirective_ext (st : St) (d : Directive) (name : String) :
    ListExt (st.secData name) ((applySectionDirective st d).secData name) := by
  unfold applySectionDirective
  split
  · exact listExt_refl _
  · split
    · exact listExt_refl _
    · refine foldl_preserve (fun (st1 : St) => ListExt (st.secData name) (st1.secData name)) _
        (fun st1 op h1 => listExt_trans h1 (secData_applySectionParam_ext st1 op name)) _ _ ?_
      exact secData_switchSection_ext st.ctx _ name

theorem secData_applyGlobalDirective_ext (st : St) (d : Directive) (name : String) :
    ListExt (st.secData name) ((applyGlobalDirective st d).secData name) := by
  unfold applyGlobalDirective Ctx.addGlobalSymbol St.secData
  repeat' split
  all_goals
    first
    | exact listExt_refl _
    | exact secData_sections_eq_ext name rfl

theorem secData_applyLabelUpdate_ext (ctx : Ctx) (label : String) (t : Option CSymbolType)
    (name : String) : ListExt (ctx.secData name) ((applyLabelUpdate ctx label t).secData name) := by
  unfold applyLabelUpdate
  repeat' split
  all_goals
    first
    | exact listExt_refl _
    | exact listExt_trans (secData_normCurrent_ext ctx name) (secData_sections_eq_ext name rfl)

theorem secData_convertOperand_ext (st : St) (op : Operand) (t : CValueType) (name : String) :
    ListExt (st.secData name) ((convertOperand st op t).1.secData name) := by
  unfold convertOperand St.secData
  cases op with
  | register n =>
    dsimp only
    rw [getRegisterIndex_ctx]
    exact listExt_refl _
  | immediate v => cases v <;> exact listExt_refl _
  | memory m =>
    dsimp only
    rw [getRegisterIndex_ctx]
    exact listExt_refl _
  | label n =>
    dsimp only
    repeat' split
    all_goals
      first
      | exact secData_normCurrent_ext st.ctx name
      | exact listExt_trans (secData_normCurrent_ext st.ctx name)
          (secData_sections_eq_ext name rfl)

theorem secData_addImmediate_ext (ctx : Ctx) (v : ImmediateValue) (t : CValueType)
    (name : String) : ListExt (ctx.secData name) ((ctx.addImmediate v t).secData name) := by
  unfold Ctx.addImmediate
  refine secData_modifyCurSec_ext ctx name (fun s => ?_)
  cases t <;> exact sec_addData_ext _ s

theorem secData_addString_ext (ctx : Ctx) (s : List Nat) (nt : Bool) (name : String) :
    ListExt (ctx.secData name) ((ctx.addString s nt).secData name) := by
  unfold Ctx.addString
  refine secData_modifyCurSec_ext ctx name (fun sec => ?_)
  dsimp only
  have h1 : ListExt sec.data ((s.foldl (fun sec c => sec.addByte (c % 256)) sec)).data :=
    foldl_preserve (fun sec1 => ListExt sec.data sec1.data) _
      (fun a b ha => listExt_trans ha (sec_addByte_ext _ a)) s sec (listExt_refl _)
  split
  · exact listExt_trans h1 (sec_addByte_ext _ _)
  · exact h1

theorem secData_processInstruction_ext (st : St) (i : Instruction) (label name : String) :
    ListExt (st.secData name) ((processInstruction st i label).secData name) := by
  unfold processInstruction
  have h0 : ListExt (st.secData name)
      ((st.withCtx (applyLabelUpdate st.ctx label (some .funcT))).secData name) :=
    secData_applyLabelUpdate_ext st.ctx label _ name
  dsimp only
  split
  · exact h0
  · split
    · exact listExt_trans h0
        (secData_modifyCurSec_ext _ name (fun s => sec_addData_ext _ s))
    · exact listExt_trans h0 (listExt_trans
        (secData_convertOperand_ext _ _ _ name)
        (secData_modifyCurSec_ext _ name (fun s => sec_addData_ext _ s)))
    · exact listExt_trans h0 (listExt_trans
        (secData_convertOperand_ext _ _ _ name) (listExt_trans
        (secData_convertOperand_ext _ _ _ name)
        (secData_modifyCurSec_ext _ name (fun s => sec_addData_ext _ s))))
    · exact listExt_trans h0 (listExt_trans
        (secData_convertOperand_ext _ _ _ name) (listExt_trans
        (secData_convertOperand_ext _ _ _ name) (listExt_trans
        (secData_convertOperand_ext _ _ _ name)
        (secData_modifyCurSec_ext _ name (fun s => sec_addData_ext _ s)))))
    · exact h0

theorem secData_processDirective_ext (st : St) (d : Directive) (label name : String) :
    ListExt (st.secData name) ((processDirective st d label).secData name) := by
  unfold processDirective
  dsimp only
  split
  · exact secData_applySectionDirective_ext st d name
  · split
    · exact secData_applyGlobalDirective_ext st d name
    · have h0 : ListExt (st.secData name)
          ((st.withCtx (applyLabelUpdate st.ctx label none)).secData name) :=
        secData_applyLabelUpdate_ext st.ctx label none name
      split
      · refine listExt_trans h0 ?_
        refine foldl_preserve
          (fun (st1 : St) => ListExt ((st.withCtx (applyLabelUpdate st.ctx label none)).secData name) (st1.secData name)) _
          (fun st1 op h1 => ?_) _ _ (listExt_refl _)
        refine listExt_trans h1 ?_
        dsimp only
        split
        · exact secData_addImmediate_ext _ _ _ name
        · exact listExt_refl _
      · split
        · refine listExt_trans h0 ?_
          refine foldl_preserve
            (fun (st1 : St) => ListExt ((st.withCtx (applyLabelUpdate st.ctx label none)).secData name) (st1.secData name)) _
            (fun st1 op h1 => ?_) _ _ (listExt_refl _)
          refine listExt_trans h1 ?_
          dsimp only
          split
          · exact secData_addString_ext _ _ _ name
          · exact listExt_refl _
          · exact listExt_refl _
        · split
          · split
            · exact h0
            · split
              · exact listExt_trans h0
                  (secData_modifyCurSec_ext _ name (fun s => sec_addData_ext _ s))
              · exact h0
              · exact h0
          · split
            · split
              · exact h0
              · split
                · split
                  · exact h0
                  · exact listExt_trans h0
                      (secData_modifyCurSec_ext _ name (fun s => sec_addData_ext _ s))
                · exact h0
                · exact h0
            · exact h0

theorem secData_pass2Step_ext (st : St) (stmt : Statement) (name : String) :
    ListExt (st.secData name) ((pass2Step st stmt).secData name) := by
  unfold pass2Step
  cases stmt with
  | empty => exact listExt_refl _
  | labelOnly label =>
    dsimp only
    split
    · exact listExt_trans (secData_normCurrent_ext st.ctx name)
        (secData_sections_eq_ext name rfl)
    · exact listExt_refl _
  | dir label d => exact secData_processDirective_ext st d label name
  | instr label i => exact secData_processInstruction_ext st i label name

theorem secData_pass2Run_ext (stmts : List Statement) (st : St) (name : String) :
    ListExt (st.secData name) ((List.foldl pass2Step st stmts).secData name) :=
  foldl_preserve (fun (st1 : St) => ListExt (st.secData name) (st1.secData name)) _
    (fun st1 stmt h1 => listExt_trans h1 (secData_pass2Step_ext st1 stmt name)) stmts st
    (listExt_refl _)

/-! ## Pass 2 does not move foreign labels

A symbol's position (value, definedness, section) is only written through
statements that carry that label; every other pass-2 operation leaves it
in place (a `global` directive touches only name and binding). -/

/-- Symbol `L` is recorded as defined at `v` in section `s`. -/
def SymAt (ctx : Ctx) (L : String) (v : Nat) (s : String) : Prop :=
  ∃ sym, ctx.getSymbol L = some sym ∧ sym.value = v ∧ sym.defined = true ∧ sym.sectionName = s

instance (ctx : Ctx) (L : String) (v : Nat) (s : String) : Decidable (SymAt ctx L v s) := by
  unfold SymAt
  cases ctx.getSymbol L with
  | none => exact .isFalse (by simp)
  | some sym =>
    refine decidable_of_iff (sym.value = v ∧ sym.defined = true ∧ sym.sectionName = s) ?_
    constructor
    · intro h
      exact ⟨sym, rfl, h.1, h.2.1, h.2.2⟩
    · rintro ⟨sym1, h1, h2⟩
      cases h1
      exact h2

/-- The label of a statement (empty when absent). -/
def stmtLabel : Statement → String
  | .empty => ""
  | .labelOnly l => l
  | .instr l _ => l
  | .dir l _ => l

theorem symAt_of_symbols_eq {ctx ctx2 : Ctx} {L : String} {v : Nat} {s : String}
    (he : ctx2.symbols = ctx.symbols) (h : SymAt ctx L v s) : SymAt ctx2 L v s := by
  obtain ⟨sym, h1, h2⟩ := h
  refine ⟨sym, ?_, h2⟩
  unfold Ctx.getSymbol at *
  rw [he]
  exact h1

theorem modifyCurSec_symbols (ctx : Ctx) (f : Sec → Sec) :
    (ctx.modifyCurSec f).symbols = ctx.symbols := by
  unfold Ctx.modifyCurSec
  dsimp only
  split <;> exact normCurrent_symbols ctx

theorem addRelocation_symbols (ctx : Ctx) (r : RelocationEntry) :
    (ctx.addRelocation r).symbols = ctx.symbols := rfl

theorem addImmediate_symbols (ctx : Ctx) (v : ImmediateValue) (t : CValueType) :
    (ctx.addImmediate v t).symbols = ctx.symbols := by
  unfold Ctx.addImmediate
  exact modifyCurSec_symbols _ _

theorem addString_symbols (ctx : Ctx) (s : List Nat) (nt : Bool) :
    (ctx.addString s nt).symbols = ctx.symbols := by
  unfold Ctx.addString
  exact modifyCurSec_symbols _ _

theorem symAt_modifySymbol_ne {ctx : Ctx} {L : String} {v : Nat} {s : String}
    (n : String) (f : Sym → Sym) (hn : n ≠ L) (h : SymAt ctx L v s) :
    SymAt (ctx.modifySymbol n f) L v s := by
  obtain ⟨sym, h1, h2⟩ := h
  refine ⟨sym, ?_, h2⟩
  unfold Ctx.modifySymbol Ctx.getSymbol at *
  dsimp only
  rw [alGet_alSet]
  rw [if_neg (fun hh => hn hh.symm)]
  exact h1

theorem symAt_addGlobalSymbol {ctx : Ctx} {L : String} {v : Nat} {s : String}
    (n : String) (h : SymAt ctx L v s) : SymAt (ctx.addGlobalSymbol n) L v s := by
  obtain ⟨sym, h1, h2⟩ := h
  unfold Ctx.addGlobalSymbol
  split
  · by_cases hn : n = L
    · subst hn
      refine ⟨{ sym with name := n, binding := .globalB }, ?_, h2⟩
      unfold Ctx.modifySymbol Ctx.getSymbol at *
      dsimp only
      rw [alGet_alSet, if_pos rfl, h1]
      rfl
    · exact symAt_modifySymbol_ne n _ hn ⟨sym, h1, h2⟩
  · next hk =>
    by_cases hn : n = L
    · subst hn
      rw [alHasKey_eq_isSome] at hk
      unfold Ctx.getSymbol at h1
      rw [h1] at hk
      simp at hk
    · refine ⟨sym, ?_, h2⟩
      unfold Ctx.getSymbol at *
      dsimp only
      exact alGet_append_left _ h1

theorem symAt_applyLabelUpdate {ctx : Ctx} {L : String} {v : Nat} {s : String}
    (label : String) (t : Option CSymbolType) (hne : label ≠ L) (h : SymAt ctx L v s) :
    SymAt (applyLabelUpdate ctx label t) L v s := by
  unfold applyLabelUpdate
  split
  · split
    · exact symAt_modifySymbol_ne label _ hne
        (symAt_of_symbols_eq (normCurrent_symbols ctx) h)
    · exact h
  · exact h

theorem symAt_applySectionParam {st : St} {L : String} {v : Nat} {s : String}
    (param : Operand) (h : SymAt st.ctx L v s) : SymAt (applySectionParam st param).ctx L v s := by
  unfold applySectionParam
  cases param with
  | label pn =>
    dsimp only
    repeat' split
    all_goals
      first
      | exact h
      | exact symAt_of_symbols_eq (modifyCurSec_symbols _ _) h
  | register n => exact h
  | immediate v1 => exact h
  | memory m => exact h

theorem symAt_applySectionDirective {st : St} {L : String} {v : Nat} {s : String}
    (d : Directive) (h : SymAt st.ctx L v s) :
    SymAt (applySectionDirective st d).ctx L v s := by
  unfold applySectionDirective
  split
  · exact h
  · split
    · exact h
    · refine foldl_preserve (fun (st1 : St) => SymAt st1.ctx L v s) _
        (fun st1 op h1 => symAt_applySectionParam op h1) _ _ ?_
      exact symAt_of_symbols_eq (switchSection_symbols _ _) h

theorem symAt_applyGlobalDirective {st : St} {L : String} {v : Nat} {s : String}
    (d : Directive) (h : SymAt st.ctx L v s) :
    SymAt (applyGlobalDirective st d).ctx L v s := by
  unfold applyGlobalDirective
  split
  · exact h
  · split
    · exact symAt_addGlobalSymbol _ h
    · exact h

theorem symAt_convertOperand {st : St} {L : String} {v : Nat} {s : String}
    (op : Operand) (t : CValueType) (h : SymAt st.ctx L v s) :
    SymAt (convertOperand st op t).1.ctx L v s := by
  unfold convertOperand
  cases op with
  | register n =>
    dsimp only
    rw [getRegisterIndex_ctx]
    exact h
  | immediate v1 => cases v1 <;> exact h
  | memory m =>
    dsimp only
    rw [getRegisterIndex_ctx]
    exact h
  | label n =>
    dsimp only
    repeat' split
    all_goals
      first
      | exact symAt_of_symbols_eq (normCurrent_symbols st.ctx) h
      | exact symAt_of_symbols_eq (by rw [addRelocation_symbols, normCurrent_symbols]) h

theorem symAt_processInstruction {st : St} {L : String} {v : Nat} {s : String}
    (i : Instruction) (label : String) (hne : label ≠ L) (h : SymAt st.ctx L v s) :
    SymAt (processInstruction st i label).ctx L v s := by
  unfold processInstruction
  have h0 : SymAt (applyLabelUpdate st.ctx label (some .funcT)) L v s :=
    symAt_applyLabelUpdate label _ hne h
  dsimp only
  split
  · exact h0
  · split
    · exact symAt_of_symbols_eq (modifyCurSec_symbols _ _) h0
    · exact symAt_of_symbols_eq (modifyCurSec_symbols _ _)
        (symAt_convertOperand _ _ h0)
    · exact symAt_of_symbols_eq (modifyCurSec_symbols _ _)
        (symAt_convertOperand _ _ (symAt_convertOperand _ _ h0))
    · exact symAt_of_symbols_eq (modifyCurSec_symbols _ _)
        (symAt_convertOperand _ _ (symAt_convertOperand _ _ (symAt_convertOperand _ _ h0)))
    · exact h0

theorem symAt_processDirective {st : St} {L : String} {v : Nat} {s : String}
    (d : Directive) (label : String) (hne : label ≠ L) (h : SymAt st.ctx L v s) :
    SymAt (processDirective st d label).ctx L v s := by
  unfold processDirective
  dsimp only
  split
  · exact symAt_applySectionDirective d h
  · split
    · exact symAt_applyGlobalDirective d h
    · have h0 : SymAt (applyLabelUpdate st.ctx label none) L v s :=
        symAt_applyLabelUpdate label none hne h
      split
      · refine foldl_preserve (fun (st1 : St) => SymAt st1.ctx L v s) _
          (fun st1 op h1 => ?_) _ _ h0
        dsimp only
        split
        · exact symAt_of_symbols_eq (addImmediate_symbols _ _ _) h1
        · exact h1
      · split
        · refine foldl_preserve (fun (st1 : St) => SymAt st1.ctx L v s) _
            (fun st1 op h1 => ?_) _ _ h0
          dsimp only
          split
          · exact symAt_of_symbols_eq (addString_symbols _ _ _) h1
          · exact h1
          · exact h1
        · split
          · split
            · exact h0
            · split
              · exact symAt_of_symbols_eq (modifyCurSec_symbols _ _) h0
              · exact h0
              · exact h0
          · split
            · split
              · exact h0
              · split
                · split
                  · exact h0
                  · exact symAt_of_symbols_eq (modifyCurSec_symbols _ _) h0
                · exact h0
                · exact h0
            · exact h0

theorem symAt_pass2Step {st : St} {L : String} {v : Nat} {s : String}
    (stmt : Statement) (hne : stmtLabel stmt ≠ L) (h : SymAt st.ctx L v s) :
    SymAt (pass2Step st stmt).ctx L v s := by
  unfold pass2Step
  cases stmt with
  | empty => exact h
  | labelOnly label =>
    dsimp only
    split
    · exact symAt_modifySymbol_ne label _ hne
        (symAt_of_symbols_eq (normCurrent_symbols st.ctx) h)
    · exact h
  | dir label d => exact symAt_processDirective d label hne h
  | instr label i => exact symAt_processInstruction i label hne h

theorem symAt_pass2Run {st : St} {L : String} {v : Nat} {s : String}
    (stmts : List Statement) (hne : ∀ stmt ∈ stmts, stmtLabel stmt ≠ L)
    (h : SymAt st.ctx L v s) : SymAt (List.foldl pass2Step st stmts).ctx L v s :=
  foldl_preserve_mem (fun (st1 : St) => SymAt st1.ctx L v s) _ stmts
    (fun st1 stmt hmem h1 => symAt_pass2Step stmt (hne stmt hmem) h1) st h

/-! ## Arithmetic and extraction lemmas -/

/-- Truncating to 32 bits after a signed-64 wrap loses nothing mod `2^32`. -/
theorem toU32_wrapI64 (x : Int) : toU32 (wrapI64 x) = toU32 x := by
  unfold toU32 wrapI64
  congr 1
  have h1 : ((x + 9223372036854775808) % 18446744073709551616) % 4294967296
      = (x + 9223372036854775808) % 4294967296 :=
    Int.emod_emod_of_dvd _ (by norm_num)
  rw [Int.sub_emod, h1]
  have h2 : (9223372036854775808 : Int) % 4294967296 = 0 := by norm_num
  rw [h2, sub_zero, Int.emod_emod_of_dvd _ dvd_rfl]
  have h3 : (9223372036854775808 : Int) = 4294967296 * 2147483648 := by norm_num
  rw [h3, Int.add_mul_emod_self_left]

theorem le4_length (v : Nat) : (le4 v).length = 4 := rfl

theorem le2_length (v : Nat) : (le2 v).length = 2 := rfl

theorem encodeOperand_length (op : COperand) : (encodeOperand op).length = 4 := by
  unfold encodeOperand
  cases h : op.type <;> try rfl
  cases op.valueType <;> rfl

/-- `curSec`'s bytes agree with the `secData` view of the current name. -/
theorem curSec_data_eq {ctx : Ctx} (h : ctx.current ≠ "") :
    ctx.curSec.data = ctx.secData ctx.current := by
  unfold Ctx.curSec Ctx.secData
  rw [normCurrent_of_ne h]
  cases alGet ctx.sections ctx.current <;> rfl

/-- Appending through the current-section reference appends to the
current name's data. -/
theorem secData_modifyCurSec_addData {ctx : Ctx} (l : List Nat) (h : ctx.current ≠ "") :
    (ctx.modifyCurSec (fun s => s.addData l)).secData ctx.current =
      ctx.secData ctx.current ++ l := by
  unfold Ctx.modifyCurSec
  dsimp only
  rw [normCurrent_of_ne h]
  split
  · next hkey =>
    unfold Ctx.secData
    dsimp only
    rw [alGet_alSet, if_pos rfl]
    rw [alHasKey_eq_isSome] at hkey
    cases hget : alGet ctx.sections ctx.current with
    | some v => rfl
    | none => rw [hget] at hkey; simp at hkey
  · next hkey =>
    unfold Ctx.secData
    dsimp only
    rw [alHasKey_eq_isSome] at hkey
    cases hget : alGet ctx.sections ctx.current with
    | some v => rw [hget] at hkey; simp at hkey
    | none =>
      rw [alGet_append_right _ hget]
      simp [alGet, Sec.addData]

/-- Other sections are untouched by an append through the current-section
reference. -/
theorem secData_modifyCurSec_other {ctx : Ctx} (f : Sec → Sec) (name : String)
    (h : ctx.normCurrent.current ≠ name) :
    (ctx.modifyCurSec f).secData name = ctx.secData name := by
  unfold Ctx.modifyCurSec
  dsimp only
  rw [← secData_normCurrent ctx name]
  split
  · unfold Ctx.secData
    dsimp only
    rw [alGet_alSet, if_neg (fun hh => h hh.symm)]
  · unfold Ctx.secData
    dsimp only
    cases hget : alGet ctx.normCurrent.sections name with
    | some v => rw [alGet_append_left _ hget]
    | none =>
      rw [alGet_append_right _ hget]
      simp [alGet, h]

/-- The pass-2 effect of `jmp @L` on a symbol already defined in the
current section: no diagnostic, no relocation, and the eight bytes
`opcode(jmp), flag 0, type nibbles 0x20, 0` followed by the little-endian
32-bit value `sym.value − (offset + 4)` are appended through the
current-section reference. -/
theorem processInstruction_jmp (st : St) (L : String) (sym : Sym)
    (hcur : st.ctx.current ≠ "")
    (hsym : st.ctx.getSymbol L = some sym)
    (hdef : sym.defined = true)
    (hsec : sym.sectionName = st.ctx.current) :
    processInstruction st { name := "jmp", operands := [.label L] } "" =
      st.withCtx (st.ctx.modifyCurSec (fun s => s.addData
        ([7, 0, 32, 0] ++ le4 (toU32 ((sym.value : Int) - (st.ctx.curSec.currentOffset : Int) - 4))))) := by
  have hop : mnemonicOpcode (asciiLower "jmp") = some 7 := rfl
  have hupd : applyLabelUpdate st.ctx "" (some .funcT) = st.ctx := by
    unfold applyLabelUpdate
    simp
  unfold processInstruction
  dsimp only
  rw [hupd, hop]
  dsimp only
  have hconv : convertOperand (st.withCtx st.ctx) (.label L) .i32 =
      (st.withCtx st.ctx,
       createImmOpInt (wrapI64 ((sym.value : Int) - (st.ctx.curSec.currentOffset : Int) - 4)) .i32) := by
    unfold convertOperand
    dsimp only
    rw [show (st.withCtx st.ctx).ctx = st.ctx from rfl]
    rw [normCurrent_of_ne hcur, hsym]
    dsimp only
    rw [hdef, hsec]
    simp
    rfl
  rw [hconv]
  dsimp only
  congr 1
  have henc : encodeInstruction
      { opcode := 7, flag0 := flagOfParams [],
        dest := createImmOpInt (wrapI64 ((sym.value : Int) - (st.ctx.curSec.currentOffset : Int) - 4)) .i32 } =
      [7, 0, 32, 0] ++ le4 (toU32 ((sym.value : Int) - (st.ctx.curSec.currentOffset : Int) - 4)) := by
    unfold encodeInstruction encodeOperand createImmOpInt
    dsimp only
    rw [toU32_wrapI64, toU32_wrapI64]
    rfl
  rw [henc]
  rfl

/-! ## Concrete claim programs

The statement lists below are the parses of the claim inputs (the
line-oriented grammar of the spec; `.section .text` carries its name as a
label-reference operand, a bare mnemonic is an instruction statement with
no label). -/

/-- `nop` (spec scenario S1). -/
def nopStmt : Statement := .instr "" { name := "nop" }

/-- The one-line program of claim C6. -/
def progNop : List Statement := [nopStmt]

/-- `.section .text`. -/
def secTextStmt : Statement := .dir "" { name := "section", operands := [.label ".text"] }

/-- `jmp @nowhere`. -/
def jmpNowhereStmt : Statement := .instr "" { name := "jmp", operands := [.label "nowhere"] }

/-- The program of claims C1 and C5 (`.section .text` / `jmp @nowhere`,
spec scenario S6). -/
def progJmpUndef : List Statement := [secTextStmt, jmpNowhereStmt]

/-- `jmp @L`. -/
def jmpTo (L : String) : Statement := .instr "" { name := "jmp", operands := [.label L] }

/-- A forward jump whose target sits after a `nop`: pass-1 offsets (8
bytes per instruction) disagree with pass-2 offsets (4 bytes for `nop`). -/
def progFwdJmp : List Statement :=
  [.instr "" { name := "jmp", operands := [.label "L"] }, nopStmt, .labelOnly "L",
   .instr "" { name := "ret" }]

/-- A backward jump (`#L` / `nop` / `jmp @L`). -/
def progBackJmp : List Statement :=
  [.labelOnly "L", nopStmt, .instr "" { name := "jmp", operands := [.label "L"] }]

/-- The duplicate-label program of claim C3 followed by a statement that
would produce its own diagnostic (`#a` twice, then `.bogus`). -/
def progDupLabel : List Statement :=
  [.labelOnly "a", .labelOnly "a", .dir "" { name := "bogus" }]

/-- `nop %r1`: an operand count that violates the per-opcode rule of the
spec (nop takes none). -/
def progNopReg : List Statement := [.instr "" { name := "nop", operands := [.register "r1"] }]

/-- Two sections first referenced in the order `.text`, `.a`. -/
def progTwoSections : List Statement :=
  [nopStmt, .dir "" { name := "section", operands := [.label ".a"] },
   .dir "" { name := "i8", operands := [.immediate (.intV 1)] }]

/-! ## Claim C1 -/

/-- C1: the claim says that after pass 2 every recorded relocation is
processed — patched little-endian when its symbol is defined, or
diagnosed when undefined and unresolved symbols are not allowed.  The
code has no relocation-resolution step at all: assembling
`.section .text` / `jmp @nowhere` (unresolved symbols not allowed)
records exactly one relocation for `nowhere`, leaves its site as the zero
placeholder, and the whole run emits **no** diagnostic — the relocation
list is simply dropped (`generateObject` never reads it, and `nowhere`
never enters the symbol table). -/
theorem c1_relocations_never_resolved :
    (runPasses progJmpUndef).map (fun st => st.errs) = .ok []
    ∧ (runPasses progJmpUndef).map (fun st => st.ctx.relocations) =
        .ok [{ symbolName := "nowhere", sectionName := ".text", offset := 0, size := 4,
               isRelative := false, addend := 0 }]
    ∧ (assemble progJmpUndef false [".text"] []).errors = []
    ∧ (runPasses progJmpUndef).map (fun st => st.secData ".text") =
        .ok [7, 0, 32, 0, 0, 0, 0, 0] :=
  ⟨rfl, rfl, rfl, rfl⟩

/-! ## Claim C5 -/

/-- C5: the claim (and the repository's own test `Error handling /
Undefined symbol`) expects at least one diagnostic referencing `nowhere`
for `.section .text` / `jmp @nowhere`.  The run produces **no**
diagnostics at all (the referenced symbol is never added to the symbol
table, so `generateObject`'s undefined-symbol check cannot see it); the
zero label payload half of the claim does hold. -/
theorem c5_no_undefined_symbol_diagnostic :
    (assemble progJmpUndef false [".text"] []).errors = []
    ∧ (runPasses progJmpUndef).map (fun st => (st.secData ".text").drop 4) =
        .ok [0, 0, 0, 0]
    ∧ (runPasses progJmpUndef).map (fun st => st.ctx.symbols) = .ok [] :=
  ⟨rfl, rfl, rfl⟩

/-! ## Claim C6 -/

/-- C6 counterexample: assembling `nop` gives a `.text` section of 4
bytes (the header-only encoding), not the at-least-8 the claim states. -/
theorem c6_counterexample_nop_size :
    (runPasses progNop).map (fun st => (st.secData ".text").length) = .ok 4
    ∧ (runPasses progNop).map (fun st => decide (8 ≤ (st.secData ".text").length)) =
        .ok false :=
  ⟨rfl, rfl⟩

/-- C6 amended: assembling `nop` yields a `.text` section of exactly 4
bytes `00 00 00 00` — first byte the nop opcode 0x00, operand-type
nibble byte 0 — with no symbols, no relocations and no diagnostics; the
generated object carries that one section and no symbols. -/
theorem c6_amended_nop_object :
    (runPasses progNop).map
        (fun st => (st.secData ".text", st.ctx.symbols, st.ctx.relocations, st.errs)) =
      .ok ([0x00, 0, 0, 0], [], [], [])
    ∧ (assemble progNop false [".text"] []).obj =
        some { strings := [".text"],
               sections := [{ name := ".text", flags := { code := true, alloc := true },
                              type := .progBits, size := 4, data := [0, 0, 0, 0] }],
               symbols := [] } :=
  ⟨rfl, rfl⟩

/-! ## Claim C3 -/

/-- C3 counterexample: on `#a` / `#a` / `.bogus` the run aborts at the
duplicate definition — the returned diagnostics are exactly the one
duplicate message and no object is produced, so the unknown-directive
problem of the third statement (which by itself yields its own
diagnostic, second conjunct) is never reported: the pipeline does not
continue and the caller does not see all problems of the run. -/
theorem c3_counterexample_abort_hides_later_errors :
    assemble progDupLabel false [".text"] ["a"] =
      { obj := none, errors := ["Assembly error: Symbol already defined: a"] }
    ∧ assemble [Statement.dir "" { name := "bogus" }] false [] [] =
        { obj := some {}, errors := ["Unknown directive: bogus"] } :=
  ⟨rfl, rfl⟩

/-! ## Claim C4 -/

/-- C4 counterexample: `nop %r1` violates the spec's per-opcode operand
count (0 for `nop`), yet assembles with **no** diagnostic and appends a
full 8-byte encoding (register payload 1) to `.text`. -/
theorem c4_counterexample_no_count_check :
    (runPasses progNopReg).map (fun st => (st.errs, st.secData ".text")) =
      .ok ([], [0, 0, 16, 0, 1, 0, 0, 0]) :=
  rfl

/-! ## Claim C7 -/

/-- C7 counterexample: for `nop` / `.section .a` / `.i8 $i1` the sections
are first referenced in the order `.text`, `.a` (first conjunct), but the
enumeration `[.a, .text]` — a permutation of the stored keys, which is
all C++ guarantees for iterating a `std::unordered_map` — makes
`generateObject` emit them in the order `.a`, `.text`: output order is
the map's enumeration order, not first-reference order. -/
theorem c7_counterexample_hash_order :
    (runPasses progTwoSections).map (fun st => st.ctx.sectionKeys) = .ok [".text", ".a"]
    ∧ ([".a", ".text"] : List String).Perm [".text", ".a"]
    ∧ (assemble progTwoSections false [".a", ".text"] []).obj.map
        (fun o => o.sections.map ObjSection.name) = some [".a", ".text"]
    ∧ ([".a", ".text"] : List String) ≠ [".text", ".a"] :=
  ⟨rfl, List.Perm.swap _ _ _, rfl, by decide⟩

/-- C3 amended: a second definition of an already-defined label raises
`AssemblyException` in pass 1; `Assembler::assemble` catches it, appends
exactly one duplicate diagnostic after whatever diagnostics were already
recorded, and returns the empty result — the statements after the
duplicate are never processed. -/
theorem c3_amended_duplicate_aborts
    (ss1 ss2 : List Statement) (L : String) (st : St) (sym : Sym)
    (hcol : collectSymbols ss1 = .ok st)
    (hsym : st.ctx.getSymbol L = some sym)
    (hdef : sym.defined = true)
    (secE symE : List String) :
    assemble (ss1 ++ Statement.labelOnly L :: ss2) false secE symE =
      { obj := none, errors := st.errs ++ ["Assembly error: Symbol already defined: " ++ L] } := by
  have hstep : collectStep st (Statement.labelOnly L) =
      .error (st.errs, "Symbol already defined: " ++ L) := by
    unfold collectStep collectLabel
    have hadd : st.ctx.normCurrent.addSymbol L (pass1Symbol st.ctx.normCurrent L) =
        .error ("Symbol already defined: " ++ L) := by
      unfold Ctx.addSymbol Ctx.getSymbol at *
      rw [normCurrent_symbols, hsym]
      dsimp only
      rw [hdef]
      simp [pass1Symbol]
    dsimp only
    rw [hadd]
  have hcol2 : collectSymbols (ss1 ++ Statement.labelOnly L :: ss2) =
      .error (st.errs, "Symbol already defined: " ++ L) := by
    unfold collectSymbols at *
    rw [List.foldlM_append, hcol]
    show (Statement.labelOnly L :: ss2).foldlM collectStep st = _
    rw [List.foldlM_cons, hstep]
    induction ss2 with
    | nil => rfl
    | cons hd tl ih => exact ih
  unfold assemble runPasses
  rw [hcol2]
  rfl

/-- C3 amended witness at the concrete duplicate program. -/
theorem c3_amended_witness :
    assemble progDupLabel false [] [] =
      { obj := none, errors := ["Assembly error: Symbol already defined: a"] } :=
  c3_amended_duplicate_aborts [Statement.labelOnly "a"]
    [Statement.dir "" { name := "bogus" }] "a" _ _ rfl rfl rfl [] []

/-! ## Claim C8 -/

/-- C8 confirmed: every encoded instruction is the 4-byte header — byte 0
the opcode, byte 1 `flag0`, byte 2 the packed type nibbles
`(dest<<4) | (src1<<2) | src2` with codes None=0, Reg=1, Imm=2, Mem=3,
Label=4, byte 3 zero — followed by the payloads of the non-None operands
in dest, src1, src2 order, each exactly 4 bytes (64-bit immediates
truncated); the total length is `4 + 4 ·(number of non-None operands)`. -/
theorem c8_encoding_layout (ci : CInstruction) :
    (encodeInstruction ci).length =
      4 + 4 * ((if ci.dest.type = .noneT then 0 else 1) +
               (if ci.src1.type = .noneT then 0 else 1) +
               (if ci.src2.type = .noneT then 0 else 1))
    ∧ (encodeInstruction ci).take 4 =
        [ci.opcode % 256, ci.flag0 % 256,
         (ci.dest.type.code <<< 4) ||| (ci.src1.type.code <<< 2) ||| ci.src2.type.code, 0]
    ∧ (encodeInstruction ci).drop 4 =
        (if ci.dest.type = .noneT then [] else encodeOperand ci.dest)
        ++ (if ci.src1.type = .noneT then [] else encodeOperand ci.src1)
        ++ (if ci.src2.type = .noneT then [] else encodeOperand ci.src2)
    ∧ (∀ op : COperand, (encodeOperand op).length = 4) := by
  refine ⟨?_, rfl, ?_, fun op => encodeOperand_length op⟩
  all_goals
    by_cases h1 : ci.dest.type = .noneT <;> by_cases h2 : ci.src1.type = .noneT <;>
      by_cases h3 : ci.src2.type = .noneT <;>
      simp [encodeInstruction, h1, h2, h3, encodeOperand_length] <;> omega

/-! ## Current-section views for the encoder theorems -/

/-- `curSec` written as a function of `sections` and `current` alone. -/
theorem curSec_eq_view (ctx : Ctx) : ctx.curSec =
    (if ctx.current = "" then
      (alGet (if alHasKey ctx.sections ".text" then ctx.sections
              else ctx.sections ++ [(".text", defaultSection ".text")]) ".text").getD {}
     else (alGet ctx.sections ctx.current).getD {}) := by
  by_cases h : ctx.current = ""
  · rw [if_pos h]
    unfold Ctx.curSec Ctx.normCurrent Ctx.ensureSection Ctx.switchSection
    rw [if_pos h]
    by_cases hk : alHasKey ctx.sections ".text"
    · simp [hk]
    · simp [hk]
  · rw [if_neg h]
    unfold Ctx.curSec
    rw [normCurrent_of_ne h]

/-- `curSec` only reads `sections` and `current`. -/
theorem curSec_congr {ctx ctx2 : Ctx} (hs : ctx2.sections = ctx.sections)
    (hc : ctx2.current = ctx.current) : ctx2.curSec = ctx.curSec := by
  rw [curSec_eq_view, curSec_eq_view, hs, hc]

theorem curSec_addRelocation (ctx : Ctx) (r : RelocationEntry) :
    (ctx.addRelocation r).curSec = ctx.curSec := curSec_congr rfl rfl

theorem curSec_modifySymbol (ctx : Ctx) (n : String) (f : Sym → Sym) :
    (ctx.modifySymbol n f).curSec = ctx.curSec := curSec_congr rfl rfl

/-- Converting an operand never changes the current section's bytes. -/
theorem convertOperand_curSec_data (st : St) (op : Operand) (t : CValueType) :
    (convertOperand st op t).1.ctx.curSec.data = st.ctx.curSec.data := by
  unfold convertOperand
  cases op with
  | register n =>
    dsimp only
    rw [getRegisterIndex_ctx]
  | immediate v => cases v <;> rfl
  | memory m =>
    dsimp only
    rw [getRegisterIndex_ctx]
  | label n =>
    dsimp only
    split
    · split
      · split
        · rw [curSec_normCurrent]
        · rw [curSec_normCurrent]
      · dsimp only
        rw [curSec_addRelocation, curSec_normCurrent]
    · dsimp only
      rw [curSec_addRelocation, curSec_normCurrent]

/-- A converted operand is never of type `None` (every AST operand kind
produces a register, immediate or memory coil operand). -/
theorem convertOperand_type_ne_none (st : St) (op : Operand) (t : CValueType) :
    (convertOperand st op t).2.type ≠ .noneT := by
  unfold convertOperand
  cases op with
  | register n => dsimp only; intro h; cases h
  | immediate v => cases v <;> (intro h; cases h)
  | memory m => dsimp only; intro h; cases h
  | label n =>
    dsimp only
    repeat' split
    all_goals intro h; cases h

/-- Appending through the current-section reference appends to the
current section's bytes. -/
theorem curSec_modifyCurSec_addData (ctx : Ctx) (l : List Nat) :
    (ctx.modifyCurSec (fun s => s.addData l)).curSec.data = ctx.curSec.data ++ l := by
  rw [← curSec_normCurrent ctx]
  unfold Ctx.modifyCurSec
  dsimp only
  have hne := normCurrent_current_ne ctx
  split
  · next hkey =>
    rw [curSec_eq_view]
    dsimp only
    rw [if_neg hne]
    rw [alGet_alSet, if_pos rfl]
    rw [alHasKey_eq_isSome] at hkey
    rw [curSec_eq_view, if_neg hne]
    cases hget : alGet ctx.normCurrent.sections ctx.normCurrent.current with
    | some v => rfl
    | none => rw [hget] at hkey; simp at hkey
  · next hkey =>
    rw [alHasKey_eq_isSome] at hkey
    rw [curSec_eq_view]
    dsimp only
    rw [if_neg hne]
    rw [curSec_eq_view, if_neg hne]
    cases hget : alGet ctx.normCurrent.sections ctx.normCurrent.current with
    | some v => rw [hget] at hkey; simp at hkey
    | none =>
      rw [alGet_append_right _ hget]
      simp [alGet, Sec.addData]

/-- The pass-2 label write-through leaves the current section alone. -/
theorem applyLabelUpdate_curSec (ctx : Ctx) (label : String) (t : Option CSymbolType) :
    (applyLabelUpdate ctx label t).curSec = ctx.curSec := by
  unfold applyLabelUpdate
  repeat' split
  all_goals try dsimp only
  all_goals
    first
    | rfl
    | rw [curSec_modifySymbol, curSec_normCurrent]

/-- The encoded length, by presence of each operand. -/
theorem encodeInstruction_length (ci : CInstruction) :
    (encodeInstruction ci).length = 4 + (if ci.dest.type = .noneT then 0 else 4)
      + (if ci.src1.type = .noneT then 0 else 4) + (if ci.src2.type = .noneT then 0 else 4) := by
  by_cases h1 : ci.dest.type = .noneT <;> by_cases h2 : ci.src1.type = .noneT <;>
    by_cases h3 : ci.src2.type = .noneT <;>
    simp [encodeInstruction, h1, h2, h3, encodeOperand_length]

/-- C4 amended: the assembler enforces no per-opcode operand-count rule.
Any statement with a known mnemonic and more than three operands gets
exactly one "Too many operands" diagnostic and appends nothing; any
operand count up to three is encoded for **every** opcode and appends
exactly `4 + 4·count` bytes for the statement without any count check
(malformed individual operands may still raise their own diagnostics). -/
theorem c4_amended_operand_count (st : St) (i : Instruction) (label : String) (op : Nat)
    (hknown : mnemonicOpcode (asciiLower i.name) = some op) :
    (3 < i.operands.length →
      processInstruction st i label =
        (st.withCtx (applyLabelUpdate st.ctx label (some .funcT))).err
          ("Too many operands for instruction: " ++ asciiLower i.name))
    ∧ (i.operands.length ≤ 3 →
      ∃ enc : List Nat, enc.length = 4 + 4 * i.operands.length ∧
        (processInstruction st i label).ctx.curSec.data = st.ctx.curSec.data ++ enc) := by
  unfold processInstruction
  dsimp only
  rw [hknown]
  dsimp only
  have hbase : ∀ ctx2 : Ctx, ctx2.curSec.data = st.ctx.curSec.data →
      ∀ l : List Nat, (ctx2.modifyCurSec (fun s => s.addData l)).curSec.data =
        st.ctx.curSec.data ++ l := by
    intro ctx2 h2 l
    rw [curSec_modifyCurSec_addData, h2]
  rcases hops : i.operands with _ | ⟨o1, _ | ⟨o2, _ | ⟨o3, _ | ⟨o4, rest⟩⟩⟩⟩
  all_goals constructor
  · intro h; simp at h
  · intro _
    refine ⟨_, ?_, hbase _ (congrArg Sec.data (applyLabelUpdate_curSec st.ctx label _)) _⟩
    simp [encodeInstruction_length]
  · intro h; simp at h
  · intro _
    refine ⟨_, ?_, hbase _ (by
      rw [convertOperand_curSec_data]
      exact congrArg Sec.data (applyLabelUpdate_curSec st.ctx label _)) _⟩
    rw [encodeInstruction_length]
    have t1 := convertOperand_type_ne_none (st.withCtx (applyLabelUpdate st.ctx label (some .funcT))) o1 .i32
    simp [t1]
  · intro h; simp at h
  · intro _
    refine ⟨_, ?_, hbase _ (by
      rw [convertOperand_curSec_data, convertOperand_curSec_data]
      exact congrArg Sec.data (applyLabelUpdate_curSec st.ctx label _)) _⟩
    rw [encodeInstruction_length]
    have t1 := convertOperand_type_ne_none (st.withCtx (applyLabelUpdate st.ctx label (some .funcT))) o1 .i32
    have t2 := convertOperand_type_ne_none
      (convertOperand (st.withCtx (applyLabelUpdate st.ctx label (some .funcT))) o1 .i32).1 o2 .i32
    simp [t1, t2]
  · intro h; simp at h
  · intro _
    refine ⟨_, ?_, hbase _ (by
      rw [convertOperand_curSec_data, convertOperand_curSec_data, convertOperand_curSec_data]
      exact congrArg Sec.data (applyLabelUpdate_curSec st.ctx label _)) _⟩
    rw [encodeInstruction_length]
    have t1 := convertOperand_type_ne_none (st.withCtx (applyLabelUpdate st.ctx label (some .funcT))) o1 .i32
    have t2 := convertOperand_type_ne_none
      (convertOperand (st.withCtx (applyLabelUpdate st.ctx label (some .funcT))) o1 .i32).1 o2 .i32
    have t3 := convertOperand_type_ne_none
      (convertOperand (convertOperand (st.withCtx (applyLabelUpdate st.ctx label (some .funcT))) o1 .i32).1 o2 .i32).1 o3 .i32
    simp [t1, t2, t3]
  · intro _; rfl
  · intro h; simp at h

/-- C4 amended witness: `nop` with four register operands gets the single
"Too many operands" diagnostic and appends nothing; `nop %r1` (count 1,
violating the claim's rule for nop) appends exactly 8 bytes. -/
theorem c4_amended_witness :
    (processInstruction { ctx := Ctx.ensureSection {} ".text" }
        { name := "nop", operands := [.register "r1", .register "r2", .register "r3", .register "r4"] } "" =
      St.err { ctx := Ctx.ensureSection {} ".text" } "Too many operands for instruction: nop")
    ∧ ∃ enc : List Nat, enc.length = 4 + 4 * 1 ∧
        (processInstruction { ctx := Ctx.ensureSection {} ".text" }
          { name := "nop", operands := [.register "r1"] } "").ctx.curSec.data =
          ({ ctx := Ctx.ensureSection {} ".text" } : St).ctx.curSec.data ++ enc := by
  constructor
  · exact (c4_amended_operand_count { ctx := Ctx.ensureSection {} ".text" }
      { name := "nop", operands := [.register "r1", .register "r2", .register "r3", .register "r4"] }
      "" 0 rfl).1 (by decide)
  · exact (c4_amended_operand_count { ctx := Ctx.ensureSection {} ".text" }
      { name := "nop", operands := [.register "r1"] } "" 0 rfl).2 (by decide)

/-! ## Claim C9 — alignment -/

theorem alHasKey_alSet {α : Type} (l : List (String × α)) (k j : String) (f : α → α) :
    alHasKey (alSet l k f) j = alHasKey l j := by
  rw [alHasKey_eq_isSome, alHasKey_eq_isSome, alGet_alSet]
  by_cases h : j = k
  · rw [if_pos h, h]; cases alGet l k <;> rfl
  · rw [if_neg h]

theorem alSet_alSet_same {α : Type} (l : List (String × α)) (k : String) (f g : α → α) :
    alSet (alSet l k f) k g = alSet l k (fun v => g (f v)) := by
  induction l with
  | nil => rfl
  | cons hd tl ih =>
    obtain ⟨k1, v⟩ := hd
    by_cases h : k1 = k
    · simp [alSet, h]
    · simp [alSet, h, ih]

theorem alSet_append_fresh {α : Type} {l : List (String × α)} {k : String}
    (hk : alGet l k = none) (w : α) (f : α → α) :
    alSet (l ++ [(k, w)]) k f = l ++ [(k, f w)] := by
  induction l with
  | nil => simp [alSet]
  | cons hd tl ih =>
    obtain ⟨k1, v⟩ := hd
    by_cases h : k1 = k
    · rw [alGet] at hk; rw [if_pos h] at hk; cases hk
    · rw [alGet] at hk; rw [if_neg h] at hk
      simp [alSet, h, ih hk]

/-- `modifyCurSec` as a case equation. -/
theorem modifyCurSec_eq (ctx : Ctx) (f : Sec → Sec) :
    ctx.modifyCurSec f =
      if alHasKey ctx.normCurrent.sections ctx.normCurrent.current then
        { ctx.normCurrent with
          sections := alSet ctx.normCurrent.sections ctx.normCurrent.current f }
      else
        { ctx.normCurrent with
          sections := ctx.normCurrent.sections ++ [(ctx.normCurrent.current, f {})] } := by
  unfold Ctx.modifyCurSec
  dsimp only

theorem modifyCurSec_current (ctx : Ctx) (f : Sec → Sec) :
    (ctx.modifyCurSec f).current = ctx.normCurrent.current := by
  rw [modifyCurSec_eq]
  split <;> rfl

/-- Writing through the current section twice with a function idempotent
on its own image is the same as writing once. -/
theorem modifyCurSec_idem {ctx : Ctx} {f : Sec → Sec} (hf : ∀ s, f (f s) = f s) :
    (ctx.modifyCurSec f).modifyCurSec f = ctx.modifyCurSec f := by
  have hne : (ctx.modifyCurSec f).current ≠ "" := by
    rw [modifyCurSec_current]
    exact normCurrent_current_ne ctx
  rw [modifyCurSec_eq (ctx.modifyCurSec f) f, normCurrent_of_ne hne]
  rw [modifyCurSec_eq ctx f]
  split
  · next hk =>
    dsimp only
    rw [if_pos (by rw [alHasKey_alSet]; exact hk)]
    rw [alSet_alSet_same]
    have : (fun v => f (f v)) = f := funext hf
    rw [this]
  · next hk =>
    dsimp only
    have hget : alGet ctx.normCurrent.sections ctx.normCurrent.current = none := by
      rw [alHasKey_eq_isSome] at hk
      cases h : alGet ctx.normCurrent.sections ctx.normCurrent.current with
      | some v => rw [h] at hk; simp at hk
      | none => rfl
    have hk2 : alHasKey (ctx.normCurrent.sections ++ [(ctx.normCurrent.current, f {})])
        ctx.normCurrent.current = true := by
      rw [alHasKey_eq_isSome, alGet_append_right _ hget]
      simp [alGet]
    rw [if_pos hk2]
    rw [alSet_append_fresh hget]
    rw [hf]

/-- Appending no bytes is the identity. -/
theorem sec_addData_nil (s : Sec) : s.addData [] = s := by
  unfold Sec.addData
  simp

/-- After padding to a power-of-two (indeed any nonzero) alignment, the
offset is a multiple of it. -/
theorem pad_aligns (N off : Nat) (hN : N ≠ 0) : (off + (N - off % N) % N) % N = 0 := by
  have hpos : 0 < N := Nat.pos_of_ne_zero hN
  by_cases hr : off % N = 0
  · simp [hr, Nat.sub_zero, Nat.mod_self, hr]
  · have h1 : off % N < N := Nat.mod_lt _ hpos
    have h2 : (N - off % N) % N = N - off % N := Nat.mod_eq_of_lt (by omega)
    rw [h2, Nat.add_mod, h2]
    have h3 : off % N + (N - off % N) = N := by omega
    rw [h3, Nat.mod_self]

/-- The `align` directive of claim C9. -/
def alignDir (v : Int) : Directive := { name := "align", operands := [.immediate (.intV v)] }

/-- The pass-2 `align` handler as a single equation. -/
theorem processDirective_align (st : St) (v : Int) :
    processDirective st (alignDir v) "" =
      (if toU64 v = 0 ∨ (toU64 v) &&& (toU64 v - 1) ≠ 0 then
        st.err "Alignment must be a power of 2"
      else
        st.withCtx (st.ctx.modifyCurSec (fun s =>
          s.addData (List.replicate ((toU64 v - s.currentOffset % toU64 v) % toU64 v) 0)))) := by
  unfold processDirective alignDir
  have hupd : applyLabelUpdate st.ctx "" none = st.ctx := by
    unfold applyLabelUpdate
    simp
  simp only [hupd]
  dsimp only
  simp only [reduceIte]
  rfl

/-- C9 confirmed: for a power-of-two alignment `align N; align N` leaves
exactly the bytes of a single `align N` (the second directive pads by
zero bytes and changes nothing at all); for `N` zero or not a power of
two the directive emits one diagnostic and appends nothing. -/
theorem c9_alignment_idempotent (st : St) (v : Int) :
    ((toU64 v ≠ 0 ∧ (toU64 v) &&& (toU64 v - 1) = 0) →
      processDirective (processDirective st (alignDir v) "") (alignDir v) "" =
        processDirective st (alignDir v) "")
    ∧ ((toU64 v = 0 ∨ (toU64 v) &&& (toU64 v - 1) ≠ 0) →
      processDirective st (alignDir v) "" = st.err "Alignment must be a power of 2") := by
  constructor
  · intro hgood
    have hcond : ¬ (toU64 v = 0 ∨ (toU64 v) &&& (toU64 v - 1) ≠ 0) := by
      push_neg
      exact ⟨hgood.1, hgood.2⟩
    rw [processDirective_align, if_neg hcond, processDirective_align, if_neg hcond]
    have hidem : ∀ s : Sec,
        (fun s : Sec => s.addData (List.replicate ((toU64 v - s.currentOffset % toU64 v) % toU64 v) 0))
          ((fun s : Sec => s.addData (List.replicate ((toU64 v - s.currentOffset % toU64 v) % toU64 v) 0)) s)
        = (fun s : Sec => s.addData (List.replicate ((toU64 v - s.currentOffset % toU64 v) % toU64 v) 0)) s := by
      intro s
      dsimp only
      have hoff : (s.addData (List.replicate ((toU64 v - s.currentOffset % toU64 v) % toU64 v) 0)).currentOffset
          = s.currentOffset + (toU64 v - s.currentOffset % toU64 v) % toU64 v := by
        unfold Sec.addData
        simp
      rw [hoff, pad_aligns (toU64 v) s.currentOffset hgood.1, Nat.sub_zero, Nat.mod_self]
      rw [List.replicate_zero]
      exact sec_addData_nil _
    show (st.withCtx (st.ctx.modifyCurSec _)).withCtx
        ((st.withCtx (st.ctx.modifyCurSec _)).ctx.modifyCurSec _) = _
    rw [show ∀ (a : St) (c : Ctx), (a.withCtx c).ctx = c from fun a c => rfl]
    rw [modifyCurSec_idem hidem]
    rfl
  · intro hbad
    rw [processDirective_align, if_pos hbad]

/-- C9 witness: at the empty driver state, `align 4; align 4` equals
`align 4`, and `align 3` yields the power-of-two diagnostic and appends
nothing. -/
theorem c9_alignment_witness :
    (processDirective (processDirective {} (alignDir 4) "") (alignDir 4) "" =
      processDirective {} (alignDir 4) "")
    ∧ processDirective {} (alignDir 3) "" = St.err {} "Alignment must be a power of 2" :=
  ⟨(c9_alignment_idempotent {} 4).1 (by decide),
   (c9_alignment_idempotent {} 3).2 (by decide)⟩

/-! ## Claim C10 -/

/-- Under the invariant, the current section's offset is its size. -/
theorem secFix_curSec {ctx : Ctx} (h : OffsetInv ctx) :
    ctx.curSec.currentOffset = ctx.curSec.data.length := by
  have h2 : OffsetInv ctx.normCurrent := offsetInv_normCurrent h
  unfold Ctx.curSec
  cases hget : alGet ctx.normCurrent.sections ctx.normCurrent.current with
  | some v => exact h2 _ (alGet_mem hget)
  | none => rfl

/-- C10 confirmed: the pass-2 reset establishes `current_offset =
data.size()` for every section; every pass-2 step (data directives,
strings, zero/align padding, instruction encoding, label bookkeeping)
preserves it, so it holds after the whole of pass 2; pass-2 steps only
ever append to a section's bytes; and a pass-2 label definition records
exactly the current byte index of the section data as the symbol's
value. -/
theorem c10_offset_invariant :
    (∀ ctx : Ctx, OffsetInv (resetSections ctx))
    ∧ (∀ (st : St) (stmt : Statement), OffsetInv st.ctx → OffsetInv (pass2Step st stmt).ctx)
    ∧ (∀ (stmts : List Statement) (st : St), OffsetInv (generateCode stmts st).ctx)
    ∧ (∀ (st : St) (stmt : Statement) (name : String),
        ListExt (st.secData name) ((pass2Step st stmt).secData name))
    ∧ (∀ (st : St) (L : String) (sym : Sym), OffsetInv st.ctx →
        (pass2Step st (.labelOnly L)).ctx.getSymbol L = some sym →
        (st.ctx.getSymbol L).isSome = true →
        sym.value = (st.ctx.curSec.data).length) := by
  refine ⟨offsetInv_resetSections, fun st stmt h => offsetInv_pass2Step stmt h,
    offsetInv_generateCode, fun st stmt name => secData_pass2Step_ext st stmt name,
    fun st L sym hInv hget hsome => ?_⟩
  obtain ⟨old, hold⟩ := Option.isSome_iff_exists.mp hsome
  unfold pass2Step at hget
  try dsimp only at hget
  rw [hold] at hget
  try dsimp only at hget
  unfold Ctx.getSymbol Ctx.modifySymbol at hget
  rw [st_withCtx_ctx] at hget
  try dsimp only at hget
  rw [alGet_alSet, if_pos rfl, normCurrent_symbols] at hget
  unfold Ctx.getSymbol at hold
  rw [hold] at hget
  try dsimp only at hget
  obtain ⟨rfl⟩ : _ = sym := Option.some_inj.mp hget
  show st.ctx.normCurrent.curSec.currentOffset = _
  rw [curSec_normCurrent]
  exact secFix_curSec hInv

/-- A driver state for the C10 witness: one section of one byte with the
invariant holding and a pending symbol `a`. -/
def ctxW : Ctx :=
  { sections := [(".text", { name := ".text", data := [9], currentOffset := 1 })],
    symbols := [("a", { name := "a" })], current := ".text" }

/-- C10 witness: the preservation and label-value parts applied at a
concrete state. -/
theorem c10_offset_invariant_witness :
    OffsetInv ((pass2Step { ctx := ctxW } nopStmt).ctx)
    ∧ ({ name := "a", value := 1, sectionName := ".text", defined := true } : Sym).value =
        (({ ctx := ctxW } : St).ctx.curSec.data).length :=
  ⟨c10_offset_invariant.2.1 { ctx := ctxW } nopStmt (by decide),
   c10_offset_invariant.2.2.2.2 { ctx := ctxW } "a" _ (by decide) rfl rfl⟩

/-! ## Claim C7 — amended half -/

/-- Whether the section stored under a key is emitted by
`generateObject`. -/
def emittedKey (ctx : Ctx) (n : String) : Bool :=
  match alGet ctx.sections n with
  | some s => ! skipSec s
  | none => false

/-- Whether the symbol stored under a key is emitted, given the object
with the already-emitted sections. -/
def symEmittedKey (ctx : Ctx) (allow : Bool) (obj0 : Obj) (n : String) : Bool :=
  match alGet ctx.symbols n with
  | none => false
  | some sym => (sym.defined || allow) && alHasKey ctx.sections sym.sectionName
      && decide (obj0.getSectionIndex sym.sectionName ≠ 0)

theorem emitSection_names (ctx : Ctx) (o : Obj) (n : String) :
    (emitSection ctx o n).sections.map ObjSection.name =
      o.sections.map ObjSection.name ++ (if emittedKey ctx n then [n] else []) := by
  unfold emitSection emittedKey
  cases alGet ctx.sections n with
  | none => simp
  | some s =>
    dsimp only
    by_cases hs : skipSec s = true <;> simp [hs]

theorem emitSection_fold_names (ctx : Ctx) :
    ∀ (secE : List String) (o : Obj),
      (secE.foldl (emitSection ctx) o).sections.map ObjSection.name =
        o.sections.map ObjSection.name ++ secE.filter (emittedKey ctx) := by
  intro secE
  induction secE with
  | nil => intro o; simp
  | cons n tl ih =>
    intro o
    rw [List.foldl_cons, ih, emitSection_names, List.filter_cons]
    by_cases h : emittedKey ctx n = true <;> simp [h]

theorem emitSymbol_sections (ctx : Ctx) (allow : Bool) (acc : Obj × List String) (n : String) :
    (emitSymbol ctx allow acc n).1.sections = acc.1.sections := by
  unfold emitSymbol
  split
  · rfl
  · split
    · rfl
    · split
      · rfl
      · dsimp only
        split
        · rfl
        · rfl

theorem emitSection_symbols (ctx : Ctx) (o : Obj) (n : String) :
    (emitSection ctx o n).symbols = o.symbols := by
  unfold emitSection
  split
  · rfl
  · split <;> rfl

theorem emitSection_fold_symbols (ctx : Ctx) :
    ∀ (secE : List String) (o : Obj), (secE.foldl (emitSection ctx) o).symbols = o.symbols := by
  intro secE
  induction secE with
  | nil => intro o; rfl
  | cons n tl ih =>
    intro o
    rw [List.foldl_cons, ih, emitSection_symbols]

theorem getSectionIndex_congr {o1 o2 : Obj} (h : o1.sections = o2.sections) :
    o1.getSectionIndex = o2.getSectionIndex := by
  funext m
  unfold Obj.getSectionIndex
  rw [h]

theorem emitSymbol_names (ctx : Ctx) (allow : Bool) (obj0 : Obj) (acc : Obj × List String)
    (n : String) (hsec : acc.1.sections = obj0.sections) :
    (emitSymbol ctx allow acc n).1.symbols.map ObjSymbol.name =
      acc.1.symbols.map ObjSymbol.name ++
        (if symEmittedKey ctx allow obj0 n then [n] else []) := by
  unfold emitSymbol symEmittedKey
  rw [getSectionIndex_congr hsec]
  cases alGet ctx.symbols n with
  | none => simp
  | some sym =>
    dsimp only
    by_cases hd : sym.defined = true <;> by_cases ha : allow = true <;>
      by_cases hk : alHasKey ctx.sections sym.sectionName = true <;>
      by_cases hz : obj0.getSectionIndex sym.sectionName = 0 <;>
      simp [hd, ha, hk, hz]

theorem emitSymbol_fold_names (ctx : Ctx) (allow : Bool) (obj0 : Obj) :
    ∀ (symE : List String) (acc : Obj × List String), acc.1.sections = obj0.sections →
      ((symE.foldl (emitSymbol ctx allow) acc).1.symbols.map ObjSymbol.name =
        acc.1.symbols.map ObjSymbol.name ++ symE.filter (symEmittedKey ctx allow obj0)) := by
  intro symE
  induction symE with
  | nil => intro acc _; simp
  | cons n tl ih =>
    intro acc hsec
    rw [List.foldl_cons, ih _ (by rw [emitSymbol_sections]; exact hsec),
      emitSymbol_names ctx allow obj0 acc n hsec, List.filter_cons]
    by_cases h : symEmittedKey ctx allow obj0 n = true <;> simp [h]

theorem emitSymbol_fold_sections (ctx : Ctx) (allow : Bool) :
    ∀ (symE : List String) (acc : Obj × List String),
      (symE.foldl (emitSymbol ctx allow) acc).1.sections = acc.1.sections := by
  intro symE
  induction symE with
  | nil => intro acc; rfl
  | cons n tl ih =>
    intro acc
    rw [List.foldl_cons, ih, emitSymbol_sections]

/-- C7 amended: the output order of sections and of symbols is exactly
the unordered-map enumeration order (restricted to the entries the code
emits) — whatever permutation of the stored keys the hash map yields —
not the first-reference / first-definition order the claim states. -/
theorem c7_amended_output_follows_enumeration (st : St) (allow : Bool)
    (secE symE : List String) :
    ((generateObject st allow secE symE).1.sections.map ObjSection.name =
      secE.filter (emittedKey st.ctx))
    ∧ ((generateObject st allow secE symE).1.symbols.map ObjSymbol.name =
      symE.filter (symEmittedKey st.ctx allow (secE.foldl (emitSection st.ctx) {}))) := by
  unfold generateObject
  constructor
  · rw [emitSymbol_fold_sections]
    have h := emitSection_fold_names st.ctx secE {}
    simpa using h
  · have h := emitSymbol_fold_names st.ctx allow (secE.foldl (emitSection st.ctx) {})
      symE (secE.foldl (emitSection st.ctx) {}, st.errs) rfl
    rw [show ((secE.foldl (emitSection st.ctx) {}, st.errs) : Obj × List String).1 =
      secE.foldl (emitSection st.ctx) {} from rfl, emitSection_fold_symbols] at h
    simpa using h

/-! ## Claim C2 -/

/-- C2 counterexample: in `jmp @L` / `nop` / `#L` / `ret` the jump starts
at pass-2 offset 0 and `L` ends at offset 12 of `.text`, the program
assembles without diagnostics, but the four bytes at the label-operand
site hold 12 — the stale pass-1 estimate of `L` (8 bytes per
instruction) — not `T − (O + 4) = 8`. -/
theorem c2_counterexample_forward_jmp :
    (runPasses progFwdJmp).map (fun st => st.errs) = .ok []
    ∧ (runPasses progFwdJmp).map (fun st => ((st.secData ".text").drop 4).take 4) =
        .ok [12, 0, 0, 0]
    ∧ (runPasses progFwdJmp).map (fun st => (st.ctx.getSymbol "L").map Sym.value) =
        .ok (some 12)
    ∧ ([12, 0, 0, 0] : List Nat) ≠ le4 (toU32 ((12 : Int) - ((0 : Int) + 4))) :=
  ⟨rfl, rfl, rfl, by decide⟩

/-- C2 amended: restricted to *backward* references — the target label's
defining statement precedes the jump (so its pass-2 value is already
final) and no later statement carries that label — the patched 4-byte
little-endian value at the label-operand site of `jmp @L` equals
`T − (O + 4)` as a 32-bit two's-complement quantity, and `L` keeps the
value `T` in the final state. -/
theorem c2_amended_backward_jmp
    (st0 st : St) (ss1 ss2 : List Statement) (L : String) (sym : Sym)
    (hst : st = List.foldl pass2Step { st0 with ctx := resetSections st0.ctx } ss1)
    (hsym : st.ctx.getSymbol L = some sym)
    (hdef : sym.defined = true)
    (hsec : sym.sectionName = st.ctx.current)
    (hcur : st.ctx.current ≠ "")
    (hInv : OffsetInv st.ctx)
    (hni : ∀ stmt ∈ ss2, stmtLabel stmt ≠ L) :
    (((generateCode (ss1 ++ jmpTo L :: ss2) st0).secData st.ctx.current).drop
        (st.ctx.curSec.currentOffset + 4)).take 4 =
      le4 (toU32 ((sym.value : Int) - ((st.ctx.curSec.currentOffset : Int) + 4)))
    ∧ SymAt (generateCode (ss1 ++ jmpTo L :: ss2) st0).ctx L sym.value st.ctx.current := by
  have hgen : generateCode (ss1 ++ jmpTo L :: ss2) st0 =
      List.foldl pass2Step (pass2Step st (jmpTo L)) ss2 := by
    unfold generateCode
    rw [List.foldl_append, ← hst, List.foldl_cons]
  have hpay : ((sym.value : Int) - ((st.ctx.curSec.currentOffset : Int) + 4)) =
      ((sym.value : Int) - (st.ctx.curSec.currentOffset : Int) - 4) := by ring
  have hjmp : pass2Step st (jmpTo L) = st.withCtx (st.ctx.modifyCurSec (fun s => s.addData
      ([7, 0, 32, 0] ++
        le4 (toU32 ((sym.value : Int) - (st.ctx.curSec.currentOffset : Int) - 4))))) := by
    show processInstruction st { name := "jmp", operands := [.label L] } "" = _
    exact processInstruction_jmp st L sym hcur hsym hdef hsec
  have hlen : (st.ctx.secData st.ctx.current).length = st.ctx.curSec.currentOffset := by
    rw [← curSec_data_eq hcur, ← secFix_curSec hInv]
  have hdata1 : (pass2Step st (jmpTo L)).ctx.secData st.ctx.current =
      st.ctx.secData st.ctx.current ++ ([7, 0, 32, 0] ++
        le4 (toU32 ((sym.value : Int) - (st.ctx.curSec.currentOffset : Int) - 4))) := by
    rw [hjmp]
    show (st.ctx.modifyCurSec _).secData st.ctx.current = _
    exact secData_modifyCurSec_addData _ hcur
  obtain ⟨t, ht⟩ := secData_pass2Run_ext ss2 (pass2Step st (jmpTo L)) st.ctx.current
  constructor
  · rw [hgen, hpay]
    show (((List.foldl pass2Step (pass2Step st (jmpTo L)) ss2).ctx.secData
        st.ctx.current).drop (st.ctx.curSec.currentOffset + 4)).take 4 = _
    unfold St.secData at ht
    rw [ht, hdata1]
    have hassoc : (st.ctx.secData st.ctx.current ++ ([7, 0, 32, 0] ++
        le4 (toU32 ((sym.value : Int) - (st.ctx.curSec.currentOffset : Int) - 4)))) ++ t =
        (st.ctx.secData st.ctx.current ++ [7, 0, 32, 0]) ++
          (le4 (toU32 ((sym.value : Int) - (st.ctx.curSec.currentOffset : Int) - 4)) ++ t) := by
      simp
    rw [hassoc]
    have hO4 : st.ctx.curSec.currentOffset + 4 =
        (st.ctx.secData st.ctx.current ++ [7, 0, 32, 0]).length := by
      simp [hlen]
    rw [hO4, List.drop_left]
    have h4 : (4 : Nat) =
        (le4 (toU32 ((sym.value : Int) - (st.ctx.curSec.currentOffset : Int) - 4))).length :=
      (le4_length _).symm
    rw [h4, List.take_left]
  · rw [hgen]
    refine symAt_pass2Run ss2 hni ?_
    rw [hjmp]
    refine symAt_of_symbols_eq ?_ ⟨sym, hsym, rfl, hdef, hsec⟩
    rw [st_withCtx_ctx]
    exact modifyCurSec_symbols _ _

/-- The pass-1 state of the backward-jump program (the input
`generateCode` receives in `runPasses`). -/
def stBack1 : St :=
  match collectSymbols progBackJmp with
  | .ok st => st
  | .error _ => {}

/-- C2 amended witness: in `#L` / `nop` / `jmp @L` the jump starts at
offset 4, the target is offset 0, and the patched value is `−8`
(`F8 FF FF FF`). -/
theorem c2_amended_backward_jmp_witness :
    (((generateCode progBackJmp stBack1).secData ".text").drop 8).take 4 =
      le4 (toU32 (-8 : Int))
    ∧ SymAt (generateCode progBackJmp stBack1).ctx "L" 0 ".text" := by
  have h := c2_amended_backward_jmp stBack1 _ [Statement.labelOnly "L", nopStmt] [] "L"
    { name := "L", value := 0, sectionName := ".text", defined := true }
    rfl (by decide) (by decide) (by decide) (by decide) (by decide)
    (fun stmt h => absurd h (List.not_mem_nil _))
  exact h

end CASM
